import Mathlib

/-!
# Tic-tac-toe server (`main.go`): shallow embedding and verified properties

The Go program keeps one `Game` value that is mutated by the accept loop of
`main` and by one handler per connection.  The embedding below passes that
state explicitly.  Every function that can hit a Go run-time panic (an index
out of range on the `Players` slice) returns `Option`, with `none` standing
for the panic.  Text written to a connection is collected as a list of
`Event`s; the server's own console logging (`fmt.Printf`) is not part of the
game state and is left out.

Conventions:
* `net.Conn` values are compared only for identity, so a connection is a
  natural number; `0` plays the role of the `nil` interface held by the zero
  `CurrentPlayer` of a fresh game.
* Go `int` values (`Index`, `Score`, positions) are `Int`.  The only
  arithmetic on them is `Score++` and `1 - Index`; wrap-around of the score
  would need 2^63 won rounds and is not modelled.
* The Go `map[int]string` board is an association list with distinct keys;
  reading an absent key yields the zero value `""`, as in Go.
-/

namespace TicTacToe

/-! ## Constants -/

abbrev Conn := Nat

def xSymbol : String := "\x1b[34mX\x1b[0m"
def oSymbol : String := "\x1b[36mO\x1b[0m"
def noWinner : String := "none"

def winCombinations : List (List Int) :=
  [[0, 1, 2], [3, 4, 5], [6, 7, 8],
   [0, 3, 6], [1, 4, 7], [2, 5, 8],
   [0, 4, 8], [2, 4, 6]]

def waitingMsg : String := "waiting for an opponent to join \n"
def opponentTurnMsg : String := "\x1b[1;31mopponent's turn!\x1b[0m\n"
def yourTurnMsg : String := "\x1b[1;32myour turn:\x1b[0m\n"
def notYourTurnMsg : String := "\x1b[1;33mIT'S NOT YOUR TURN\x1b[0m\n"
def takenMsg : String := "\x1b[1;31mTHIS PLACE IS ALREADY TAKEN\x1b[0m\n\n"
def youWinMsg : String := "\n\n\x1b[1;32mYOU WIN\x1b[0m\n\n\n"
def youLoseMsg : String := "\n\n\x1b[1;33mYOU LOSE\x1b[0m\n\n\n"
def gameFullMsg : String := "\x1b[1;31mGame is full, try again later!\x1b[0m\n"
def opponentLeftMsg : String :=
  "\n\n Your opponent left the game.\n Reset.\n Waiting for a new opponent.\n"

/-! ## Data model -/

structure Player where
  Index : Int
  Connection : Conn
  Symbol : String
  Score : Int
  deriving DecidableEq, Repr

structure Game where
  Board : List (Int × String)
  Players : List Player
  CurrentPlayer : Player
  Watchers : List Conn
  deriving DecidableEq, Repr

/-- What the server does to a connection: `Connection.Write` and
`Connection.Close`. -/
inductive Event where
  | write (c : Conn) (msg : String)
  | close (c : Conn)
  deriving DecidableEq, Repr

/-- Go map read `m[k]`: the stored value, or `""` when the key is absent. -/
def mapGet (m : List (Int × String)) (k : Int) : String :=
  (m.lookup k).getD ""

/-- Go map write `m[k] = v`: overwrite the entry of `k`, or add one. -/
def mapSet : List (Int × String) → Int → String → List (Int × String)
  | [], k, v => [(k, v)]
  | (k0, v0) :: rest, k, v =>
    if k0 = k then (k, v) :: rest else (k0, v0) :: mapSet rest k v

/-! ## Methods of `Game` and `Player` -/

namespace Game

def isFullBoard (g : Game) : Bool :=
  g.Board.all fun kv => !(kv.2 != xSymbol && kv.2 != oSymbol)

def isFullPlaces (g : Game) : Bool :=
  g.Players.length == 2

/-- The loop of `getWinnerSymbol` over the remaining combinations. -/
def winnerLoop (b : List (Int × String)) : List (List Int) → String
  | [] => noWinner
  | c :: cs =>
    if mapGet b (c.getD 0 0) = mapGet b (c.getD 1 0)
        ∧ mapGet b (c.getD 1 0) = mapGet b (c.getD 2 0) then
      mapGet b (c.getD 0 0)
    else winnerLoop b cs

def getWinnerSymbol (g : Game) : String :=
  winnerLoop g.Board winCombinations

def shouldResetBoard (g : Game) : Bool :=
  g.getWinnerSymbol != noWinner || g.isFullBoard

def canPlayTurn (g : Game) (p : Player) : Bool :=
  p.Connection == g.CurrentPlayer.Connection && g.isFullPlaces

def resetBoard (g : Game) : Game :=
  let cells : List Int := [0, 1, 2, 3, 4, 5, 6, 7, 8]
  { g with Board := cells.foldl (fun b i => mapSet b i (toString i)) g.Board }

/-- `none` is the index-out-of-range panic of `g.Players[1]` / `g.Players[0]`. -/
def switchCurrentPlayer (g : Game) : Option Game :=
  if g.CurrentPlayer.Index = 0 then
    match g.Players[1]? with
    | some p => some { g with CurrentPlayer := p }
    | none => none
  else
    match g.Players[0]? with
    | some p => some { g with CurrentPlayer := p }
    | none => none

def isFreePos (g : Game) (pos : Int) : Bool :=
  decide (pos ≥ 0) && decide (pos < 9)
    && mapGet g.Board pos != xSymbol && mapGet g.Board pos != oSymbol

def playTurn (g : Game) (p : Player) (pos : Int) : Game :=
  { g with Board := mapSet g.Board pos p.Symbol }

/-- The returned pointer `&g.Players[k]` is represented by the position `k`;
`none` is the index-out-of-range panic. -/
def getPlayerWithSymbol (g : Game) (s : String) : Option Nat :=
  match g.Players[0]? with
  | none => none
  | some p0 =>
    if p0.Symbol = s then some 0
    else if 1 < g.Players.length then some 1 else none

/-- The text of `String()`. -/
def render (g : Game) : String :=
  if !g.isFullPlaces then waitingMsg
  else
    let board := List.foldl
      (fun acc i => acc ++ (mapGet g.Board i ++ " | " ++ mapGet g.Board (i + 1)
        ++ " | " ++ mapGet g.Board (i + 2) ++ "\n")) "" ([0, 3, 6] : List Int)
    let score := g.Players.foldl
      (fun acc p => acc ++ (p.Symbol ++ ":" ++ toString p.Score ++ " ")) ""
    board ++ " \nscore: " ++ score ++ "\n"

def dispatchNextTurn (g : Game) : List Event :=
  if !g.isFullPlaces then []
  else g.Players.map fun p =>
    if p.Connection != g.CurrentPlayer.Connection then
      Event.write p.Connection opponentTurnMsg
    else Event.write p.Connection yourTurnMsg

def dispatchGame (g : Game) : List Event :=
  g.Players.map fun p => Event.write p.Connection g.render

end Game

def Player.incrementScore (p : Player) : Player :=
  { p with Score := p.Score + 1 }

/-! ## Connection handling -/

/-- Lines 187-198 of `handlePlayerPosition`: score a win, reset a finished
board, broadcast.  `none` is an index-out-of-range panic. -/
def settleRound (g : Game) : Option (Game × List Event) :=
  let ws := g.getWinnerSymbol
  let scored : Option (Game × List Event) :=
    if ws ≠ noWinner then
      match g.getPlayerWithSymbol ws with
      | none => none
      | some k =>
        match g.Players[k]? with
        | none => none
        | some winner =>
          if 0 ≤ 1 - winner.Index then
            match g.Players[(1 - winner.Index).toNat]? with
            | none => none
            | some loser =>
              some ({ g with Players := g.Players.set k winner.incrementScore },
                    [Event.write winner.Connection youWinMsg,
                     Event.write loser.Connection youLoseMsg])
          else none
    else some (g, [])
  match scored with
  | none => none
  | some (g1, ev) =>
    let g2 := if g1.shouldResetBoard then g1.resetBoard else g1
    some (g2, ev ++ g2.dispatchGame ++ g2.dispatchNextTurn)

def handlePlayerPosition (pos : Int) (g : Game) (p : Player) :
    Option (Game × List Event) :=
  if g.canPlayTurn p && g.isFreePos pos then
    match (g.playTurn p pos).switchCurrentPlayer with
    | none => none
    | some g1 => settleRound g1
  else if !g.canPlayTurn p then
    some (g, [Event.write p.Connection notYourTurnMsg])
  else if !g.isFreePos pos then
    some (g, [Event.write p.Connection takenMsg])
  else settleRound g

/-- The slice surgery of `handlePlayerQuit`: drop the first seat whose
connection is `c`. -/
def removeSeat : List Player → Conn → List Player
  | [], _ => []
  | p :: ps, c => if p.Connection = c then ps else p :: removeSeat ps c

/-- `none` is the index-out-of-range panic of `g.Players[0]`. -/
def handlePlayerQuit (g : Game) (pl : Player) : Option (Game × List Event) :=
  let g1 : Game := { g with Players := removeSeat g.Players pl.Connection }
  let g2 := g1.resetBoard
  match g2.Players with
  | [] => none
  | p0 :: rest =>
    some ({ g2 with Players := { p0 with Score := 0 } :: rest },
          [Event.close pl.Connection, Event.write p0.Connection opponentLeftMsg])

def rejectConnection (conn : Conn) : List Event :=
  [Event.write conn gameFullMsg, Event.close conn]

/-- The state created by `main` before its accept loop. -/
def newGame : Game :=
  Game.resetBoard
    { Board := [], Players := [],
      CurrentPlayer := { Index := 0, Connection := 0, Symbol := "", Score := 0 },
      Watchers := [] }

/-- One round of the accept loop of `main` for the accepted connection
`conn`.  `none` is the index-out-of-range panic of the symbol table. -/
def acceptConnection (g : Game) (conn : Conn) : Option (Game × List Event) :=
  if g.isFullPlaces then some (g, rejectConnection conn)
  else
    match [xSymbol, oSymbol][g.Players.length]? with
    | none => none
    | some sym =>
      let player : Player :=
        { Index := g.Players.length, Connection := conn, Symbol := sym, Score := 0 }
      let g1 : Game := { g with Players := g.Players ++ [player], CurrentPlayer := player }
      some (g1, if g1.isFullPlaces then g1.dispatchGame ++ g1.dispatchNextTurn else [])

/-- The error kind of a `*strconv.NumError`: `ErrSyntax` or `ErrRange`. -/
inductive NumError where
  | invalid
  | outOfRange
  deriving DecidableEq, Repr

/-- The digit loop of Go `strconv.ParseUint(s, 10, 64)` (standard library).
Bytes are read left to right: a byte that is not a decimal digit ends the
loop with value 0 and a syntax error; when the next digit would overflow 64
bits the loop ends at once with the maximal value and a range error.  The
text is read character by character: a character outside ASCII is a run of
bytes none of which is a digit, so it is a syntax error either way. -/
def parseUintLoop : List Char → Nat → Nat × Option NumError
  | [], n => (n, none)
  | c :: cs, n =>
    if c.isDigit then
      if n ≥ (2 ^ 64 - 1) / 10 + 1 then (2 ^ 64 - 1, some NumError.outOfRange)
      else if n * 10 + (c.toNat - 48) > 2 ^ 64 - 1 then (2 ^ 64 - 1, some NumError.outOfRange)
      else parseUintLoop cs (n * 10 + (c.toNat - 48))
    else (0, some NumError.invalid)

/-- Go `strconv.ParseUint(s, 10, 64)`. -/
def parseUint (s : List Char) : Nat × Option NumError :=
  if s = [] then (0, some NumError.invalid) else parseUintLoop s 0

/-- Go `strconv.ParseInt(s, 10, 0)` with a 64-bit `int`: an optional sign,
then `ParseUint`; a syntax error gives 0, a value out of range gives the
nearest bound with a range error. -/
def parseInt (s : List Char) : Int × Option NumError :=
  if s = [] then (0, some NumError.invalid)
  else
    let neg : Bool := s.head? == some '-'
    let digits : List Char :=
      match s with
      | '+' :: r => r
      | '-' :: r => r
      | _ => s
    match parseUint digits with
    | (_, some NumError.invalid) => (0, some NumError.invalid)
    | (un, _) =>
      if !neg && decide (un ≥ 2 ^ 63) then (2 ^ 63 - 1, some NumError.outOfRange)
      else if neg && decide (un > 2 ^ 63) then (-(2 ^ 63), some NumError.outOfRange)
      else (if neg then -(un : Int) else (un : Int), none)

/-- The loop of the fast path of `strconv.Atoi`: `none` when a byte is not a
decimal digit. -/
def atoiFastLoop : List Char → Nat → Option Nat
  | [], n => some n
  | c :: cs, n => if c.isDigit then atoiFastLoop cs (n * 10 + (c.toNat - 48)) else none

/-- Go `strconv.Atoi` (standard library) with a 64-bit `int`: texts of 1 to
18 bytes take the fast path (optional sign, then digits only), all others go
through `ParseInt(s, 10, 0)`.  The second component is the error, `none` for
`nil`. -/
def atoi (s : String) : Int × Option NumError :=
  if 0 < s.utf8ByteSize ∧ s.utf8ByteSize < 19 then
    let cs := s.toList
    let digits : List Char :=
      match cs with
      | '-' :: r => r
      | '+' :: r => r
      | _ => cs
    if digits = [] then (0, some NumError.invalid)
    else
      match atoiFastLoop digits 0 with
      | none => (0, some NumError.invalid)
      | some n => (if cs.head? == some '-' then -(n : Int) else (n : Int), none)
  else parseInt s.toList

/-- The position `handleGameConnection` hands to `handlePlayerPosition` for
one scanned line: `pos, _ := strconv.Atoi(scanner.Text())`. -/
def scanPos (line : String) : Int := (atoi line).1

/-- One iteration of the scanner loop of `handleGameConnection`. -/
def handleLine (g : Game) (p : Player) (line : String) : Option (Game × List Event) :=
  handlePlayerPosition (scanPos line) g p

/-- The value `player` that `main` hands to `handleGameConnection` is the
copy made when the seat was created, so its score is 0. -/
def handlerOf (s : Player) : Player := { s with Score := 0 }

/-- States of the server: `newGame`, then any interleaving of accepted
connections, moves sent by seated players and departures of seated
players.  A step that panics has no successor. -/
inductive Reachable : Game → Prop
  | init : Reachable newGame
  | join (g : Game) (c : Conn) (g1 : Game) (ev : List Event) :
      Reachable g → c ≠ 0 → (∀ p ∈ g.Players, p.Connection ≠ c) →
      acceptConnection g c = some (g1, ev) → Reachable g1
  | move (g : Game) (s : Player) (pos : Int) (g1 : Game) (ev : List Event) :
      Reachable g → s ∈ g.Players →
      handlePlayerPosition pos g (handlerOf s) = some (g1, ev) → Reachable g1
  | leave (g : Game) (s : Player) (g1 : Game) (ev : List Event) :
      Reachable g → s ∈ g.Players →
      handlePlayerQuit g (handlerOf s) = some (g1, ev) → Reachable g1

/-! ## Auxiliary notions used in the statements -/


def cellIndices : List Int := [0, 1, 2, 3, 4, 5, 6, 7, 8]

/-- `s` is one of the two player marks. -/
def IsPlayerSymbol (s : String) : Prop := s = xSymbol ∨ s = oSymbol

/-- Each of the cells 0..8 holds X, O or its own index string. -/
def CellsOK (b : List (Int × String)) : Prop :=
  ∀ i ∈ cellIndices, mapGet b i = xSymbol ∨ mapGet b i = oSymbol ∨ mapGet b i = toString i

/-- All three cells of the triple `c` hold `s`. -/
def LineOf (b : List (Int × String)) (c : List Int) (s : String) : Prop :=
  mapGet b (c.getD 0 0) = s ∧ mapGet b (c.getD 1 0) = s ∧ mapGet b (c.getD 2 0) = s

/-- The triple `c` is held by one player mark. -/
def PlayerLine (b : List (Int × String)) (c : List Int) : Prop :=
  ∃ s, IsPlayerSymbol s ∧ LineOf b c s

instance (s : String) : Decidable (IsPlayerSymbol s) := by unfold IsPlayerSymbol; infer_instance
instance (b : List (Int × String)) : Decidable (CellsOK b) := by unfold CellsOK; infer_instance
instance (b : List (Int × String)) (c : List Int) (s : String) : Decidable (LineOf b c s) := by
  unfold LineOf; infer_instance

/-- A seat created by `main`: index 0 with X, or index 1 with O. -/
def SeatShape (a : Player) : Prop :=
  (a.Index = 0 ∧ a.Symbol = xSymbol) ∨ (a.Index = 1 ∧ a.Symbol = oSymbol)

/-- The seat lists that occur: at most two seats, the second one always
created as index 1 with O. -/
def SeatsOK : List Player → Prop
  | [] => True
  | [a] => SeatShape a
  | [a, b] => SeatShape a ∧ b.Index = 1 ∧ b.Symbol = oSymbol
  | _ => False

/-- Invariant of the reachable states used by the proofs below. -/
structure Inv (g : Game) : Prop where
  keys : g.Board.map Prod.fst = cellIndices
  cells : CellsOK g.Board
  seats : SeatsOK g.Players
  noX : (∀ p ∈ g.Players, p.Symbol ≠ xSymbol) →
    ∀ i ∈ cellIndices, mapGet g.Board i ≠ xSymbol

/-- The state `settleRound` returns for a two-seat game: the score of the
first seat whose symbol is the winner symbol (else the second seat) goes up
when there is a winner, and a finished board is reset. -/
def settled (g : Game) (a b : Player) : Game :=
  let scored : Game :=
    if g.getWinnerSymbol ≠ noWinner then
      { g with Players :=
          if a.Symbol = g.getWinnerSymbol then [a.incrementScore, b]
          else [a, b.incrementScore] }
    else g
  if g.shouldResetBoard then scored.resetBoard else scored

/-- Further facts about reachable states: seats have distinct connections,
the current player of a full game is seated, and the board at rest shows no
winner and is not full. -/
structure Inv2 (g : Game) : Prop where
  distinct : (g.Players.map Player.Connection).Nodup
  turn : g.Players.length = 2 →
    g.CurrentPlayer.Connection ∈ g.Players.map Player.Connection
  quiet : g.getWinnerSymbol = noWinner ∧ g.isFullBoard = false

/-- The board of a fresh game: every cell holds its own index. -/
def emptyBoard : List (Int × String) := newGame.Board

/-! ## Runs of the server and the concrete states used as examples -/

/-- One thing that happens to the server: a connection is accepted, a seated
player sends a position, or a seated player's connection ends. -/
inductive Step where
  | join (c : Conn)
  | move (c : Conn) (pos : Int)
  | leave (c : Conn)
  deriving DecidableEq, Repr

/-- The seat list entry whose connection is `c`. -/
def seatOf (g : Game) (c : Conn) : Option Player :=
  g.Players.find? fun p => p.Connection == c

/-- Execute one step; `none` when the step is impossible or panics. -/
def step (g : Game) : Step → Option Game
  | Step.join c =>
    if c ≠ 0 ∧ ∀ p ∈ g.Players, p.Connection ≠ c then
      (acceptConnection g c).map Prod.fst
    else none
  | Step.move c pos =>
    match seatOf g c with
    | none => none
    | some s => (handlePlayerPosition pos g (handlerOf s)).map Prod.fst
  | Step.leave c =>
    match seatOf g c with
    | none => none
    | some s => (handlePlayerQuit g (handlerOf s)).map Prod.fst

/-- Execute a list of steps from `g`. -/
def run : Game → List Step → Option Game
  | g, [] => some g
  | g, st :: rest =>
    match step g st with
    | none => none
    | some g1 => run g1 rest

/-- First player to connect (connection 1): index 0, X. -/
def seatX : Player := { Index := 0, Connection := 1, Symbol := xSymbol, Score := 0 }

/-- Second player to connect (connection 2): index 1, O. -/
def seatO : Player := { Index := 1, Connection := 2, Symbol := oSymbol, Score := 0 }

/-- A player who connects (connection 3) after `seatX` has left: index 1, O. -/
def seatLate : Player := { Index := 1, Connection := 3, Symbol := oSymbol, Score := 0 }

/-- Both players have joined; the second one is to move. -/
def twoSeats : Game :=
  { Board := emptyBoard, Players := [seatX, seatO], CurrentPlayer := seatO, Watchers := [] }

/-- After O 4, X 0, O 1, X 3, O 2: X is to move and cell 6 completes 0-3-6. -/
def winEve : Game :=
  { Board := [(0, xSymbol), (1, oSymbol), (2, oSymbol), (3, xSymbol), (4, oSymbol),
      (5, "5"), (6, "6"), (7, "7"), (8, "8")],
    Players := [seatX, seatO], CurrentPlayer := seatX, Watchers := [] }

/-- After O 4, X 0, O 8, X 2, O 1, X 7, O 3, X 5: O is to move, only cell 6 is
free and filling it completes no triple. -/
def drawEve : Game :=
  { Board := [(0, xSymbol), (1, oSymbol), (2, xSymbol), (3, oSymbol), (4, oSymbol),
      (5, xSymbol), (6, "6"), (7, xSymbol), (8, oSymbol)],
    Players := [seatX, seatO], CurrentPlayer := seatO, Watchers := [] }

/-- After both players joined, the first one left, a new player joined and
played cell 0: both seats carry index 1 and O, and `seatO` is to move. -/
def reseated : Game :=
  { Board := [(0, oSymbol), (1, "1"), (2, "2"), (3, "3"), (4, "4"),
      (5, "5"), (6, "6"), (7, "7"), (8, "8")],
    Players := [seatO, seatLate], CurrentPlayer := seatO, Watchers := [] }

/-- Only the first player has joined. -/
def oneSeat : Game :=
  { Board := emptyBoard, Players := [seatX], CurrentPlayer := seatX, Watchers := [] }

/-- After the win of `winEve` (X plays 6) and the next move O 0: X has score 1
and cell 0 is taken. -/
def afterWin : Game :=
  { Board := [(0, oSymbol), (1, "1"), (2, "2"), (3, "3"), (4, "4"),
      (5, "5"), (6, "6"), (7, "7"), (8, "8")],
    Players := [{ seatX with Score := 1 }, seatO],
    CurrentPlayer := { seatX with Score := 1 }, Watchers := [] }

/-- A connection (9) that holds no seat. -/
def stranger : Player := { Index := 0, Connection := 9, Symbol := xSymbol, Score := 0 }

/-- After both players joined and the first one left. -/
def widowed : Game :=
  { Board := emptyBoard, Players := [seatO], CurrentPlayer := seatO, Watchers := [] }

/-- After both players joined, the first one left and a new player joined. -/
def rejoined : Game :=
  { Board := emptyBoard, Players := [seatO, seatLate], CurrentPlayer := seatLate,
    Watchers := [] }

/-- The state `reseated` after `seatO` played cell 1: cell 2 completes 0-1-2. -/
def reseatedEve : Game :=
  { Board := [(0, oSymbol), (1, oSymbol), (2, "2"), (3, "3"), (4, "4"),
      (5, "5"), (6, "6"), (7, "7"), (8, "8")],
    Players := [seatO, seatLate], CurrentPlayer := seatO, Watchers := [] }

/-! ## Facts about the constants -/

theorem emptyCell_ne_x : ∀ i ∈ cellIndices, toString i ≠ xSymbol := by decide
theorem emptyCell_ne_o : ∀ i ∈ cellIndices, toString i ≠ oSymbol := by decide
theorem emptyCell_ne_none : ∀ i ∈ cellIndices, toString i ≠ noWinner := by decide
theorem emptyCell_inj : ∀ i ∈ cellIndices, ∀ j ∈ cellIndices, toString i = toString j → i = j := by
  decide
theorem xSymbol_ne_oSymbol : xSymbol ≠ oSymbol := by decide
theorem xSymbol_ne_none : xSymbol ≠ noWinner := by decide
theorem oSymbol_ne_none : oSymbol ≠ noWinner := by decide

theorem mem_cellIndices {i : Int} : i ∈ cellIndices ↔ 0 ≤ i ∧ i < 9 := by
  simp only [cellIndices, List.mem_cons, List.mem_singleton, List.mem_nil_iff, or_false]
  omega

theorem winCombinations_cells : ∀ c ∈ winCombinations,
    c.getD 0 0 ∈ cellIndices ∧ c.getD 1 0 ∈ cellIndices ∧ c.getD 2 0 ∈ cellIndices
      ∧ c.getD 0 0 ≠ c.getD 1 0 := by
  decide

/-- On a well-formed board the equality test of `getWinnerSymbol` succeeds on
a triple exactly when one player holds it. -/
theorem test_iff_playerLine {b : List (Int × String)} (hb : CellsOK b) {c : List Int}
    (hc : c ∈ winCombinations) :
    (mapGet b (c.getD 0 0) = mapGet b (c.getD 1 0)
        ∧ mapGet b (c.getD 1 0) = mapGet b (c.getD 2 0)) ↔ PlayerLine b c := by
  obtain ⟨h0, h1, _, hne⟩ := winCombinations_cells c hc
  constructor
  · rintro ⟨e1, e2⟩
    refine ⟨mapGet b (c.getD 0 0), ?_, rfl, e1.symm, (e1.trans e2).symm⟩
    rcases hb _ h0 with hx | ho | he
    · exact Or.inl hx
    · exact Or.inr ho
    · exfalso
      rcases hb _ h1 with hx | ho | he1
      · exact emptyCell_ne_x _ h0 (he.symm.trans (e1.trans hx))
      · exact emptyCell_ne_o _ h0 (he.symm.trans (e1.trans ho))
      · exact hne (emptyCell_inj _ h0 _ h1 (he.symm.trans (e1.trans he1)))
  · rintro ⟨s, _, l0, l1, l2⟩
    exact ⟨l0.trans l1.symm, l1.trans l2.symm⟩

theorem winnerLoop_first (b : List (Int × String)) (pre : List (List Int)) (c : List Int)
    (post : List (List Int))
    (hpre : ∀ d ∈ pre, ¬ (mapGet b (d.getD 0 0) = mapGet b (d.getD 1 0)
        ∧ mapGet b (d.getD 1 0) = mapGet b (d.getD 2 0)))
    (hc : mapGet b (c.getD 0 0) = mapGet b (c.getD 1 0)
        ∧ mapGet b (c.getD 1 0) = mapGet b (c.getD 2 0)) :
    Game.winnerLoop b (pre ++ c :: post) = mapGet b (c.getD 0 0) := by
  induction pre with
  | nil => simp only [List.nil_append, Game.winnerLoop, if_pos hc]
  | cons d ds ih =>
    have hd := hpre d (List.mem_cons_self _ _)
    have hds : ∀ e ∈ ds, ¬ (mapGet b (e.getD 0 0) = mapGet b (e.getD 1 0)
        ∧ mapGet b (e.getD 1 0) = mapGet b (e.getD 2 0)) :=
      fun e he => hpre e (List.mem_cons_of_mem _ he)
    simp only [List.cons_append, Game.winnerLoop, if_neg hd]
    exact ih hds

theorem winnerLoop_none (b : List (Int × String)) (cs : List (List Int))
    (h : ∀ d ∈ cs, ¬ (mapGet b (d.getD 0 0) = mapGet b (d.getD 1 0)
        ∧ mapGet b (d.getD 1 0) = mapGet b (d.getD 2 0))) :
    Game.winnerLoop b cs = noWinner := by
  induction cs with
  | nil => rfl
  | cons d ds ih =>
    have hd := h d (List.mem_cons_self _ _)
    simp only [Game.winnerLoop, if_neg hd]
    exact ih fun e he => h e (List.mem_cons_of_mem _ he)

/-- The loop returns `none` when no triple passes the test, and otherwise the
first cell of a triple that passes it. -/
theorem winnerLoop_cases (b : List (Int × String)) (cs : List (List Int)) :
    ((∀ d ∈ cs, ¬ (mapGet b (d.getD 0 0) = mapGet b (d.getD 1 0)
        ∧ mapGet b (d.getD 1 0) = mapGet b (d.getD 2 0)))
      ∧ Game.winnerLoop b cs = noWinner) ∨
      ∃ c ∈ cs, (mapGet b (c.getD 0 0) = mapGet b (c.getD 1 0)
        ∧ mapGet b (c.getD 1 0) = mapGet b (c.getD 2 0))
        ∧ Game.winnerLoop b cs = mapGet b (c.getD 0 0) := by
  induction cs with
  | nil => exact Or.inl ⟨fun d hd => absurd hd (List.not_mem_nil d), rfl⟩
  | cons d ds ih =>
    by_cases hd : mapGet b (d.getD 0 0) = mapGet b (d.getD 1 0)
        ∧ mapGet b (d.getD 1 0) = mapGet b (d.getD 2 0)
    · refine Or.inr ⟨d, List.mem_cons_self _ _, hd, ?_⟩
      simp only [Game.winnerLoop, if_pos hd]
    · simp only [Game.winnerLoop, if_neg hd]
      rcases ih with ⟨hall, h⟩ | ⟨c, hc, ht, he⟩
      · refine Or.inl ⟨?_, h⟩
        intro e he
        rcases List.mem_cons.1 he with rfl | he
        · exact hd
        · exact hall e he
      · exact Or.inr ⟨c, List.mem_cons_of_mem _ hc, ht, he⟩

/-- On a well-formed board the winner symbol is `none` when no player holds a
triple, and otherwise the mark of a player who holds one. -/
theorem getWinnerSymbol_cases (g : Game) (hb : CellsOK g.Board) :
    ((¬ ∃ c ∈ winCombinations, PlayerLine g.Board c) ∧ g.getWinnerSymbol = noWinner) ∨
      (IsPlayerSymbol g.getWinnerSymbol ∧
        ∃ c ∈ winCombinations, LineOf g.Board c g.getWinnerSymbol) := by
  unfold Game.getWinnerSymbol
  rcases winnerLoop_cases g.Board winCombinations with ⟨hall, h⟩ | ⟨c, hc, ht, he⟩
  · refine Or.inl ⟨?_, h⟩
    rintro ⟨c, hc, hl⟩
    exact hall c hc ((test_iff_playerLine hb hc).2 hl)
  · right
    obtain ⟨s, hs, l0, l1, l2⟩ := (test_iff_playerLine hb hc).1 ht
    rw [he, l0]
    exact ⟨hs, c, hc, l0, l1, l2⟩

/-- C5: on a board whose cells 0..8 each hold X, O or their own index,
`getWinnerSymbol` returns a player mark exactly when a player holds one of the
eight triples, namely the mark on the first such triple in the listed order;
it returns `none` when no triple is held, and never the value of an empty
cell. -/
theorem getWinnerSymbol_spec (g : Game) (hb : CellsOK g.Board) :
    (IsPlayerSymbol g.getWinnerSymbol ↔ ∃ c ∈ winCombinations, PlayerLine g.Board c)
    ∧ (∀ (pre : List (List Int)) (c : List Int) (post : List (List Int)) (s : String),
        winCombinations = pre ++ c :: post → IsPlayerSymbol s → LineOf g.Board c s →
        (∀ d ∈ pre, ¬ PlayerLine g.Board d) → g.getWinnerSymbol = s)
    ∧ ((¬ ∃ c ∈ winCombinations, PlayerLine g.Board c) → g.getWinnerSymbol = noWinner)
    ∧ (∀ i ∈ cellIndices, g.getWinnerSymbol ≠ toString i) := by
  refine ⟨⟨?_, ?_⟩, ?_, ?_, ?_⟩
  · intro hp
    rcases getWinnerSymbol_cases g hb with ⟨_, h⟩ | ⟨_, c, hc, hl⟩
    · rcases hp with hp | hp
      · exact absurd (hp.symm.trans h) xSymbol_ne_none
      · exact absurd (hp.symm.trans h) oSymbol_ne_none
    · exact ⟨c, hc, _, hp, hl⟩
  · intro hex
    rcases getWinnerSymbol_cases g hb with ⟨hno, _⟩ | ⟨hp, _⟩
    · exact absurd hex hno
    · exact hp
  · intro pre c post s hsplit hs hl hpre
    unfold Game.getWinnerSymbol
    have hcm : c ∈ winCombinations := by rw [hsplit]; simp
    have hpm : ∀ d ∈ pre, d ∈ winCombinations := by
      intro d hd; rw [hsplit]; simp [hd]
    rw [hsplit, winnerLoop_first g.Board pre c post
      (fun d hd ht => hpre d hd ((test_iff_playerLine hb (hpm d hd)).1 ht))
      ((test_iff_playerLine hb hcm).2 ⟨s, hs, hl⟩)]
    exact hl.1
  · intro hno
    rcases getWinnerSymbol_cases g hb with ⟨_, h⟩ | ⟨hp, c, hc, hl⟩
    · exact h
    · exact absurd ⟨c, hc, _, hp, hl⟩ hno
  · intro i hi he
    rcases getWinnerSymbol_cases g hb with ⟨_, h⟩ | ⟨hp, _⟩
    · exact emptyCell_ne_none i hi (he.symm.trans h)
    · rcases hp with hp | hp
      · exact emptyCell_ne_x i hi (he.symm.trans hp)
      · exact emptyCell_ne_o i hi (he.symm.trans hp)

/-! ## The board as a map -/

theorem mapGet_mapSet (b : List (Int × String)) (k : Int) (v : String) (j : Int) :
    mapGet (mapSet b k v) j = if j = k then v else mapGet b j := by
  induction b with
  | nil =>
    by_cases h : j = k
    · simp [mapSet, mapGet, List.lookup_cons, h]
    · have hb : (j == k) = false := by simpa using h
      simp [mapSet, mapGet, List.lookup_cons, h, hb]
  | cons kv rest ih =>
    obtain ⟨k0, v0⟩ := kv
    unfold mapGet at ih ⊢
    by_cases h0 : k0 = k
    · subst h0
      by_cases h : j = k0
      · simp [mapSet, List.lookup_cons, h]
      · have hb : (j == k0) = false := by simpa using h
        simp [mapSet, List.lookup_cons, h, hb]
    · by_cases h1 : j = k0
      · subst h1
        simp [mapSet, List.lookup_cons, h0]
      · have hb : (j == k0) = false := by simpa using h1
        simp only [mapSet, if_neg h0, List.lookup_cons, hb]
        exact ih

theorem keys_mapSet (b : List (Int × String)) (k : Int) (v : String)
    (hk : k ∈ b.map Prod.fst) : (mapSet b k v).map Prod.fst = b.map Prod.fst := by
  induction b with
  | nil => simp at hk
  | cons kv rest ih =>
    obtain ⟨k0, v0⟩ := kv
    by_cases h0 : k0 = k
    · simp [mapSet, h0]
    · have : k ∈ rest.map Prod.fst := by
        simp only [List.map_cons, List.mem_cons] at hk
        rcases hk with hk | hk
        · exact absurd hk.symm h0
        · exact hk
      simp [mapSet, h0, ih this]

theorem mapGet_resetBoard (g : Game) : ∀ i ∈ cellIndices,
    mapGet g.resetBoard.Board i = toString i := by
  intro i hi
  simp only [Game.resetBoard, List.foldl, mapGet_mapSet]
  simp only [cellIndices, List.mem_cons, List.mem_singleton, List.mem_nil_iff, or_false] at hi
  rcases hi with h | h | h | h | h | h | h | h | h <;> subst h <;> simp

theorem keys_mapSet_cell (b : List (Int × String)) (k : Int) (v : String)
    (hb : b.map Prod.fst = cellIndices) (hk : k ∈ cellIndices) :
    (mapSet b k v).map Prod.fst = cellIndices := by
  rw [keys_mapSet b k v (by rw [hb]; exact hk), hb]

theorem keys_resetBoard (g : Game) (hk : g.Board.map Prod.fst = cellIndices) :
    g.resetBoard.Board.map Prod.fst = cellIndices := by
  simp only [Game.resetBoard, List.foldl]
  have hm : ∀ i ∈ cellIndices, i ∈ cellIndices := fun _ h => h
  simp only [cellIndices, List.forall_mem_cons] at hm
  obtain ⟨m0, m1, m2, m3, m4, m5, m6, m7, m8, _⟩ := hm
  exact keys_mapSet_cell _ _ _ (keys_mapSet_cell _ _ _ (keys_mapSet_cell _ _ _
    (keys_mapSet_cell _ _ _ (keys_mapSet_cell _ _ _ (keys_mapSet_cell _ _ _
    (keys_mapSet_cell _ _ _ (keys_mapSet_cell _ _ _ (keys_mapSet_cell _ _ _ hk m0) m1) m2)
    m3) m4) m5) m6) m7) m8

/-! ## Rejected moves -/

theorem handlePlayerPosition_of_not_turn (pos : Int) (g : Game) (p : Player)
    (h : g.canPlayTurn p = false) :
    handlePlayerPosition pos g p = some (g, [Event.write p.Connection notYourTurnMsg]) := by
  simp [handlePlayerPosition, h]

theorem handlePlayerPosition_of_not_free (pos : Int) (g : Game) (p : Player)
    (ht : g.canPlayTurn p = true) (h : g.isFreePos pos = false) :
    handlePlayerPosition pos g p = some (g, [Event.write p.Connection takenMsg]) := by
  simp [handlePlayerPosition, h, ht]

theorem isFreePos_eq_false (g : Game) (pos : Int)
    (h : pos < 0 ∨ 9 ≤ pos ∨ mapGet g.Board pos = xSymbol ∨ mapGet g.Board pos = oSymbol) :
    g.isFreePos pos = false := by
  unfold Game.isFreePos
  rcases h with h | h | h | h
  · have : ¬ (pos ≥ 0) := by omega
    simp [this]
  · have : ¬ (pos < 9) := by omega
    simp [this]
  · simp [h]
  · simp [h]

theorem canPlayTurn_eq_true (g : Game) (p : Player) (h2 : g.Players.length = 2)
    (ht : p.Connection = g.CurrentPlayer.Connection) : g.canPlayTurn p = true := by
  simp [Game.canPlayTurn, Game.isFullPlaces, h2, ht]

theorem canPlayTurn_eq_false (g : Game) (p : Player)
    (h : g.Players.length ≠ 2 ∨ p.Connection ≠ g.CurrentPlayer.Connection) :
    g.canPlayTurn p = false := by
  unfold Game.canPlayTurn Game.isFullPlaces
  rcases h with h | h <;> simp [h]

/-! ## Scoring and reset after a move -/

theorem shouldResetBoard_players (g : Game) (ps : List Player) :
    ({ g with Players := ps } : Game).shouldResetBoard = g.shouldResetBoard := rfl

theorem settleRound_two (g : Game) (a b : Player) (hp : g.Players = [a, b])
    (ha : a.Index = 0 ∨ a.Index = 1) (hb : b.Index = 0 ∨ b.Index = 1) :
    ∃ ev, settleRound g = some (settled g a b, ev) := by
  unfold settleRound settled
  by_cases hw : g.getWinnerSymbol = noWinner
  · simp [hw]
  · by_cases hs : a.Symbol = g.getWinnerSymbol
    · rcases ha with ha | ha
      · simp [hw, hs, hp, ha, Game.getPlayerWithSymbol, Player.incrementScore,
          shouldResetBoard_players]
      · simp [hw, hs, hp, ha, Game.getPlayerWithSymbol, Player.incrementScore,
          shouldResetBoard_players]
    · rcases hb with hb | hb
      · simp [hw, hs, hp, hb, Game.getPlayerWithSymbol, Player.incrementScore,
          shouldResetBoard_players]
      · simp [hw, hs, hp, hb, Game.getPlayerWithSymbol, Player.incrementScore,
          shouldResetBoard_players]

theorem handlePlayerPosition_accepted (pos : Int) (g : Game) (p a b : Player)
    (hp : g.Players = [a, b]) (ha : a.Index = 0 ∨ a.Index = 1) (hb : b.Index = 0 ∨ b.Index = 1)
    (ht : g.canPlayTurn p = true) (hf : g.isFreePos pos = true) :
    ∃ ev, handlePlayerPosition pos g p =
      some (settled { g.playTurn p pos with
        CurrentPlayer := if g.CurrentPlayer.Index = 0 then b else a } a b, ev) := by
  have hsw : (g.playTurn p pos).switchCurrentPlayer =
      some { g.playTurn p pos with
        CurrentPlayer := if g.CurrentPlayer.Index = 0 then b else a } := by
    unfold Game.switchCurrentPlayer
    by_cases h0 : g.CurrentPlayer.Index = 0
    · simp [Game.playTurn, hp, h0]
    · simp [Game.playTurn, hp, h0]
  obtain ⟨ev, hev⟩ := settleRound_two
    { g.playTurn p pos with CurrentPlayer := if g.CurrentPlayer.Index = 0 then b else a }
    a b (by simp [Game.playTurn, hp]) ha hb
  refine ⟨ev, ?_⟩
  unfold handlePlayerPosition
  simp only [ht, hf, Bool.and_self, if_true, hsw]
  exact hev

/-! ## The invariant -/

theorem seatsOK_two {ps : List Player} (h : SeatsOK ps) (h2 : ps.length = 2) :
    ∃ a b, ps = [a, b] ∧ SeatShape a ∧ b.Index = 1 ∧ b.Symbol = oSymbol := by
  rcases ps with _ | ⟨a, _ | ⟨b, _ | ⟨c, t⟩⟩⟩
  · simp at h2
  · simp at h2
  · exact ⟨a, b, rfl, h⟩
  · simp at h2

theorem seatsOK_symbol {ps : List Player} (h : SeatsOK ps) {s : Player} (hs : s ∈ ps) :
    IsPlayerSymbol s.Symbol := by
  rcases ps with _ | ⟨a, _ | ⟨b, _ | ⟨c, t⟩⟩⟩
  · simp at hs
  · simp only [List.mem_singleton] at hs
    subst hs
    rcases h with h | h
    · exact Or.inl h.2
    · exact Or.inr h.2
  · simp only [List.mem_cons, List.mem_singleton, List.mem_nil_iff, or_false] at hs
    obtain ⟨h1, _, h3⟩ := h
    rcases hs with rfl | rfl
    · rcases h1 with h | h
      · exact Or.inl h.2
      · exact Or.inr h.2
    · exact Or.inr h3
  · exact absurd h (by simp [SeatsOK])

theorem seatsOK_length {ps : List Player} (h : SeatsOK ps) : ps.length ≤ 2 := by
  rcases ps with _ | ⟨a, _ | ⟨b, _ | ⟨c, t⟩⟩⟩
  · simp
  · simp
  · simp
  · exact absurd h (by simp [SeatsOK])

theorem cellsOK_reset (g : Game) : CellsOK g.resetBoard.Board :=
  fun i hi => Or.inr (Or.inr (mapGet_resetBoard g i hi))

theorem inv_newGame : Inv newGame where
  keys := by decide
  cells := by decide
  seats := by simp [newGame, Game.resetBoard, SeatsOK]
  noX := fun _ => by decide

theorem inv_resetBoard (g : Game) (ps : List Player) (hk : g.Board.map Prod.fst = cellIndices)
    (hs : SeatsOK ps) : Inv { g.resetBoard with Players := ps } where
  keys := keys_resetBoard g hk
  cells := cellsOK_reset g
  seats := hs
  noX := by
    intro _ i hi h
    exact emptyCell_ne_x i hi ((mapGet_resetBoard g i hi).symm.trans h)

theorem inv_players {g : Game} (h : Inv g) (ps : List Player) (hs : SeatsOK ps)
    (hsym : ps.map Player.Symbol = g.Players.map Player.Symbol) :
    Inv { g with Players := ps } where
  keys := h.keys
  cells := h.cells
  seats := hs
  noX := by
    intro hx
    apply h.noX
    intro p hp
    have : p.Symbol ∈ ps.map Player.Symbol := by
      rw [hsym]; exact List.mem_map_of_mem _ hp
    obtain ⟨q, hq, he⟩ := List.mem_map.1 this
    rw [← he]
    exact hx q hq

theorem inv_currentPlayer {g : Game} (h : Inv g) (c : Player) :
    Inv { g with CurrentPlayer := c } :=
  ⟨h.keys, h.cells, h.seats, h.noX⟩

theorem inv_reset {g : Game} (h : Inv g) : Inv g.resetBoard :=
  inv_resetBoard g g.Players h.keys h.seats

theorem inv_settled {g : Game} (h : Inv g) (a b : Player) (hp : g.Players = [a, b]) :
    Inv (settled g a b) := by
  have hs : SeatsOK [a, b] := hp ▸ h.seats
  have h1 : Inv { g with Players := [a.incrementScore, b] } :=
    inv_players h _ hs (by simp [hp, Player.incrementScore])
  have h2 : Inv { g with Players := [a, b.incrementScore] } :=
    inv_players h _ hs (by simp [hp, Player.incrementScore])
  unfold settled
  by_cases hw : g.getWinnerSymbol = noWinner
  · simp only [hw, ne_eq, not_true_eq_false, if_false]
    split
    · exact inv_reset h
    · exact h
  · simp only [ne_eq, hw, not_false_eq_true, if_true]
    by_cases hsym : a.Symbol = g.getWinnerSymbol
    · simp only [hsym, if_true]
      split
      · exact inv_reset h1
      · exact h1
    · simp only [hsym, if_false]
      split
      · exact inv_reset h2
      · exact h2

theorem inv_playTurn {g : Game} (h : Inv g) {s : Player} (hs : s ∈ g.Players) {pos : Int}
    (hpos : pos ∈ cellIndices) : Inv (g.playTurn (handlerOf s) pos) where
  keys := keys_mapSet_cell _ _ _ h.keys hpos
  cells := by
    intro i hi
    simp only [Game.playTurn, handlerOf, mapGet_mapSet]
    by_cases e : i = pos
    · simp only [e, if_true]
      rcases seatsOK_symbol h.seats hs with hx | ho
      · exact Or.inl hx
      · exact Or.inr (Or.inl ho)
    · simp only [e, if_false]
      exact h.cells i hi
  seats := h.seats
  noX := by
    intro hx i hi
    simp only [Game.playTurn, handlerOf, mapGet_mapSet]
    by_cases e : i = pos
    · simp only [e, if_true]
      exact hx s hs
    · simp only [e, if_false]
      exact h.noX hx i hi

theorem isFreePos_mem {g : Game} {pos : Int} (h : g.isFreePos pos = true) :
    pos ∈ cellIndices := by
  simp only [Game.isFreePos, Bool.and_eq_true, decide_eq_true_eq] at h
  exact mem_cellIndices.2 ⟨h.1.1.1, h.1.1.2⟩

theorem canPlayTurn_length {g : Game} {p : Player} (h : g.canPlayTurn p = true) :
    g.Players.length = 2 := by
  simp only [Game.canPlayTurn, Game.isFullPlaces, Bool.and_eq_true, beq_iff_eq] at h
  exact h.2

theorem seatShape_index {a : Player} (h : SeatShape a) : a.Index = 0 ∨ a.Index = 1 := by
  rcases h with h | h
  · exact Or.inl h.1
  · exact Or.inr h.1

theorem inv_handlePlayerPosition {g : Game} (h : Inv g) {s : Player} (hs : s ∈ g.Players)
    (pos : Int) {g1 : Game} {ev : List Event}
    (he : handlePlayerPosition pos g (handlerOf s) = some (g1, ev)) : Inv g1 := by
  by_cases ht : g.canPlayTurn (handlerOf s) = true
  · by_cases hf : g.isFreePos pos = true
    · obtain ⟨a, b, hp, ha, hb, _⟩ := seatsOK_two h.seats (canPlayTurn_length ht)
      obtain ⟨ev1, h1⟩ := handlePlayerPosition_accepted pos g (handlerOf s) a b hp
        (seatShape_index ha) (Or.inr hb) ht hf
      rw [h1] at he
      simp only [Option.some.injEq, Prod.mk.injEq] at he
      rw [← he.1]
      exact inv_settled (inv_currentPlayer (inv_playTurn h hs (isFreePos_mem hf)) _) a b
        (by simp [Game.playTurn, hp])
    · simp only [Bool.not_eq_true] at hf
      rw [handlePlayerPosition_of_not_free pos g _ ht hf] at he
      simp only [Option.some.injEq, Prod.mk.injEq] at he
      exact he.1 ▸ h
  · simp only [Bool.not_eq_true] at ht
    rw [handlePlayerPosition_of_not_turn pos g _ ht] at he
    simp only [Option.some.injEq, Prod.mk.injEq] at he
    exact he.1 ▸ h

theorem inv_acceptConnection {g : Game} (h : Inv g) (c : Conn) {g1 : Game} {ev : List Event}
    (he : acceptConnection g c = some (g1, ev)) : Inv g1 := by
  have hseats := h.seats
  unfold acceptConnection at he
  rcases hP : g.Players with _ | ⟨a, _ | ⟨b, _ | ⟨d, t⟩⟩⟩
  · simp only [Game.isFullPlaces, hP, List.length_nil, List.nil_append] at he
    simp at he
    rw [← he.1]
    refine ⟨h.keys, h.cells, ?_, ?_⟩
    · exact Or.inl ⟨by simp, rfl⟩
    · intro hx
      exact absurd rfl (hx _ (List.mem_singleton_self _))
  · simp only [Game.isFullPlaces, hP, List.length_singleton] at he
    simp at he
    rw [← he.1]
    rw [hP] at hseats
    refine ⟨h.keys, h.cells, ?_, ?_⟩
    · exact ⟨hseats, by simp, rfl⟩
    · intro hx
      apply h.noX
      intro p hp
      rw [hP] at hp
      have hpa : p = a := List.mem_singleton.1 hp
      exact hx p (by simp [hpa])
  · simp [Game.isFullPlaces, hP] at he
    exact he.1 ▸ h
  · rw [hP] at hseats
    exact absurd hseats (by simp [SeatsOK])

theorem seatShape_score {a : Player} (h : SeatShape a) (n : Int) :
    SeatShape { a with Score := n } := h

theorem inv_handlePlayerQuit {g : Game} (h : Inv g) (pl : Player) {g1 : Game}
    {ev : List Event} (he : handlePlayerQuit g pl = some (g1, ev)) : Inv g1 := by
  have hseats := h.seats
  unfold handlePlayerQuit at he
  rcases hP : g.Players with _ | ⟨a, _ | ⟨b, _ | ⟨d, t⟩⟩⟩
  · simp [Game.resetBoard, hP, removeSeat] at he
  · rw [hP] at hseats
    by_cases hc : a.Connection = pl.Connection
    · simp [Game.resetBoard, hP, removeSeat, hc] at he
    · simp only [Game.resetBoard, hP, removeSeat, hc, if_false, Option.some.injEq,
        Prod.mk.injEq] at he
      rw [← he.1]
      exact inv_resetBoard g _ h.keys (seatShape_score hseats 0)
  · rw [hP] at hseats
    obtain ⟨ha, hb1, hb2⟩ := hseats
    by_cases hc : a.Connection = pl.Connection
    · simp only [Game.resetBoard, hP, removeSeat, hc, if_true, Option.some.injEq,
        Prod.mk.injEq] at he
      rw [← he.1]
      exact inv_resetBoard g _ h.keys (Or.inr ⟨hb1, hb2⟩)
    · by_cases hd : b.Connection = pl.Connection
      · simp only [Game.resetBoard, hP, removeSeat, hc, hd, if_true, if_false,
          Option.some.injEq, Prod.mk.injEq] at he
        rw [← he.1]
        exact inv_resetBoard g _ h.keys (seatShape_score ha 0)
      · simp only [Game.resetBoard, hP, removeSeat, hc, hd, if_false, Option.some.injEq,
          Prod.mk.injEq] at he
        rw [← he.1]
        exact inv_resetBoard g _ h.keys ⟨seatShape_score ha 0, hb1, hb2⟩
  · rw [hP] at hseats
    exact absurd hseats (by simp [SeatsOK])

/-- Every reachable state satisfies the invariant. -/
theorem reachable_inv {g : Game} (h : Reachable g) : Inv g := by
  induction h with
  | init => exact inv_newGame
  | join g c g1 ev _ _ _ he ih => exact inv_acceptConnection ih c he
  | move g s pos g1 ev _ hs he ih => exact inv_handlePlayerPosition ih hs pos he
  | leave g s g1 ev _ _ he ih => exact inv_handlePlayerQuit ih _ he

theorem mapGet_of_mem (b : List (Int × String)) (hn : (b.map Prod.fst).Nodup)
    (k : Int) (v : String) (hm : (k, v) ∈ b) : mapGet b k = v := by
  induction b with
  | nil => simp at hm
  | cons kv rest ih =>
    obtain ⟨k0, v0⟩ := kv
    simp only [List.map_cons, List.nodup_cons] at hn
    unfold mapGet at ih ⊢
    rcases List.mem_cons.1 hm with he | hr
    · simp only [Prod.mk.injEq] at he
      obtain ⟨rfl, rfl⟩ := he
      simp [List.lookup_cons]
    · have hk : k ≠ k0 := by
        intro e
        subst e
        exact hn.1 (List.mem_map.2 ⟨(k, v), hr, rfl⟩)
      have hb : (k == k0) = false := by simpa using hk
      simp only [List.lookup_cons, hb]
      exact ih hn.2 hr

theorem isFullBoard_of_cells (g : Game) (hk : g.Board.map Prod.fst = cellIndices)
    (hfull : ∀ i ∈ cellIndices, IsPlayerSymbol (mapGet g.Board i)) :
    g.isFullBoard = true := by
  unfold Game.isFullBoard
  rw [List.all_eq_true]
  intro kv hkv
  obtain ⟨k, v⟩ := kv
  have hmem : k ∈ cellIndices := by
    rw [← hk]
    exact List.mem_map.2 ⟨(k, v), hkv, rfl⟩
  have hnd : (g.Board.map Prod.fst).Nodup := by
    rw [hk]
    decide
  have hv := mapGet_of_mem g.Board hnd k v hkv
  have hp := hfull k hmem
  rw [hv] at hp
  rcases hp with hp | hp <;> simp [hp]

/-! ## Runs -/

theorem seatOf_mem {g : Game} {c : Conn} {s : Player} (h : seatOf g c = some s) :
    s ∈ g.Players :=
  List.mem_of_find?_eq_some h

theorem reachable_step {g : Game} (h : Reachable g) (st : Step) {g1 : Game}
    (he : step g st = some g1) : Reachable g1 := by
  cases st with
  | join c =>
    simp only [step] at he
    split at he
    · rename_i hc
      cases hr : acceptConnection g c with
      | none => simp [hr] at he
      | some r =>
        rw [hr] at he
        have e : r.1 = g1 := by simpa using he
        subst e
        exact Reachable.join g c r.1 r.2 h hc.1 hc.2 hr
    · simp at he
  | move c pos =>
    simp only [step] at he
    cases hs : seatOf g c with
    | none => simp [hs] at he
    | some s =>
      simp only [hs] at he
      cases hr : handlePlayerPosition pos g (handlerOf s) with
      | none => simp [hr] at he
      | some r =>
        rw [hr] at he
        have e : r.1 = g1 := by simpa using he
        subst e
        exact Reachable.move g s pos r.1 r.2 h (seatOf_mem hs) hr
  | leave c =>
    simp only [step] at he
    cases hs : seatOf g c with
    | none => simp [hs] at he
    | some s =>
      simp only [hs] at he
      cases hr : handlePlayerQuit g (handlerOf s) with
      | none => simp [hr] at he
      | some r =>
        rw [hr] at he
        have e : r.1 = g1 := by simpa using he
        subst e
        exact Reachable.leave g s r.1 r.2 h (seatOf_mem hs) hr

theorem reachable_run {g : Game} (h : Reachable g) (steps : List Step) {g1 : Game}
    (he : run g steps = some g1) : Reachable g1 := by
  induction steps generalizing g with
  | nil =>
    simp only [run, Option.some.injEq] at he
    exact he ▸ h
  | cons st rest ih =>
    simp only [run] at he
    cases hs : step g st with
    | none => simp [hs] at he
    | some g2 =>
      simp only [hs] at he
      exact ih (reachable_step h st hs) he

theorem reachable_twoSeats : Reachable twoSeats :=
  reachable_run Reachable.init [Step.join 1, Step.join 2] (by decide)

theorem reachable_winEve : Reachable winEve :=
  reachable_run reachable_twoSeats
    [Step.move 2 4, Step.move 1 0, Step.move 2 1, Step.move 1 3, Step.move 2 2] (by decide)

theorem reachable_drawEve : Reachable drawEve :=
  reachable_run reachable_twoSeats
    [Step.move 2 4, Step.move 1 0, Step.move 2 8, Step.move 1 2, Step.move 2 1,
     Step.move 1 7, Step.move 2 3, Step.move 1 5] (by decide)

theorem reachable_reseated : Reachable reseated :=
  reachable_run reachable_twoSeats [Step.leave 1, Step.join 3, Step.move 3 0] (by decide)

/-! ## Properties of the specification, C1 to C10 -/

/-- C1: in a reachable two-seat state, an accepted move after which
`getWinnerSymbol` is not `none` returns with every cell 0..8 holding its own
index string, the score of the seat whose symbol is the winner symbol one
higher (the first such seat in the seat list), and the other seat
unchanged. -/
theorem win_resets_and_scores (g : Game) (s : Player) (pos : Int)
    (hr : Reachable g) (h2 : g.Players.length = 2) (hs : s ∈ g.Players)
    (ht : g.canPlayTurn (handlerOf s) = true) (hf : g.isFreePos pos = true)
    (hw : (g.playTurn (handlerOf s) pos).getWinnerSymbol ≠ noWinner) :
    ∃ g1 ev a b, handlePlayerPosition pos g (handlerOf s) = some (g1, ev)
      ∧ (∀ i ∈ cellIndices, mapGet g1.Board i = toString i)
      ∧ g.Players = [a, b]
      ∧ ((a.Symbol = (g.playTurn (handlerOf s) pos).getWinnerSymbol
            ∧ g1.Players = [{ a with Score := a.Score + 1 }, b])
          ∨ (a.Symbol ≠ (g.playTurn (handlerOf s) pos).getWinnerSymbol
            ∧ b.Symbol = (g.playTurn (handlerOf s) pos).getWinnerSymbol
            ∧ g1.Players = [a, { b with Score := b.Score + 1 }])) := by
  have hinv := reachable_inv hr
  obtain ⟨a, b, hp, ha, hb1, hb2⟩ := seatsOK_two hinv.seats h2
  obtain ⟨ev, he⟩ := handlePlayerPosition_accepted pos g (handlerOf s) a b hp
    (seatShape_index ha) (Or.inr hb1) ht hf
  have hinv1 := inv_playTurn hinv hs (isFreePos_mem hf)
  refine ⟨_, ev, a, b, he, ?_, hp, ?_⟩
  · intro i hi
    have hsr : ({ g.playTurn (handlerOf s) pos with
        CurrentPlayer := if g.CurrentPlayer.Index = 0 then b else a } : Game).shouldResetBoard
          = true := by
      simp only [Game.shouldResetBoard, Bool.or_eq_true, bne_iff_ne]
      exact Or.inl hw
    unfold settled
    rw [hsr]
    exact mapGet_resetBoard _ i hi
  · have hws : ({ g.playTurn (handlerOf s) pos with
        CurrentPlayer := if g.CurrentPlayer.Index = 0 then b else a } : Game).getWinnerSymbol
          = (g.playTurn (handlerOf s) pos).getWinnerSymbol := rfl
    have hsr : ({ g.playTurn (handlerOf s) pos with
        CurrentPlayer := if g.CurrentPlayer.Index = 0 then b else a } : Game).shouldResetBoard
          = true := by
      simp only [Game.shouldResetBoard, Bool.or_eq_true, bne_iff_ne]
      exact Or.inl hw
    by_cases hsym : a.Symbol = (g.playTurn (handlerOf s) pos).getWinnerSymbol
    · left
      refine ⟨hsym, ?_⟩
      unfold settled
      rw [hsr]
      simp [hws, hw, hsym, Game.resetBoard, Player.incrementScore]
    · right
      refine ⟨hsym, ?_, ?_⟩
      · rcases getWinnerSymbol_cases _ hinv1.cells with ⟨_, hn⟩ | ⟨hps, c, hc, hl⟩
        · exact absurd hn hw
        · rcases hps with hx | ho
          · exfalso
            have haO : a.Symbol = oSymbol := by
              rcases ha with ha | ha
              · exact absurd (ha.2.trans hx.symm) hsym
              · exact ha.2
            have hnoX : ∀ p ∈ (g.playTurn (handlerOf s) pos).Players,
                p.Symbol ≠ xSymbol := by
              intro p hpm
              have hpm2 : p ∈ [a, b] := hp ▸ hpm
              simp only [List.mem_cons, List.mem_singleton, List.mem_nil_iff,
                or_false] at hpm2
              rcases hpm2 with rfl | rfl
              · rw [haO]; exact fun e => xSymbol_ne_oSymbol e.symm
              · rw [hb2]; exact fun e => xSymbol_ne_oSymbol e.symm
            exact hinv1.noX hnoX _ (winCombinations_cells c hc).1 (hl.1.trans hx)
          · exact hb2.trans ho.symm
      · unfold settled
        rw [hsr]
        simp [hws, hw, hsym, Game.resetBoard, Player.incrementScore]

/-- Witness for C1, the scenario of the specification: X (seat 0) completes
0-3-6 with cell 6; seat 0 then has score 1, seat 1 score 0, the board is
empty and seat 1 is to move. -/
theorem win_resets_and_scores_witness :
    (handlePlayerPosition 6 winEve (handlerOf seatX)).map Prod.fst
        = some { Board := emptyBoard, Players := [{ seatX with Score := 1 }, seatO],
                 CurrentPlayer := seatO, Watchers := [] }
      ∧ ∃ g1 ev a b, handlePlayerPosition 6 winEve (handlerOf seatX) = some (g1, ev)
        ∧ (∀ i ∈ cellIndices, mapGet g1.Board i = toString i)
        ∧ winEve.Players = [a, b]
        ∧ ((a.Symbol = (winEve.playTurn (handlerOf seatX) 6).getWinnerSymbol
              ∧ g1.Players = [{ a with Score := a.Score + 1 }, b])
            ∨ (a.Symbol ≠ (winEve.playTurn (handlerOf seatX) 6).getWinnerSymbol
              ∧ b.Symbol = (winEve.playTurn (handlerOf seatX) 6).getWinnerSymbol
              ∧ g1.Players = [a, { b with Score := b.Score + 1 }])) :=
  ⟨by decide,
   win_resets_and_scores winEve seatX 6 reachable_winEve (by decide) (by decide)
     (by decide) (by decide) (by decide)⟩

/-- C2: when the caller is the seat to move in a two-seat state and `pos` is
outside [0,9) or its cell holds X or O, `isFreePos` is false and
`handlePlayerPosition` returns the state unchanged, its only output being the
"already taken" notice to the caller. -/
theorem cellTaken_rejected (g : Game) (p : Player) (pos : Int)
    (h2 : g.Players.length = 2) (ht : p.Connection = g.CurrentPlayer.Connection)
    (hbad : pos < 0 ∨ 9 ≤ pos ∨ mapGet g.Board pos = xSymbol ∨ mapGet g.Board pos = oSymbol) :
    g.isFreePos pos = false
      ∧ handlePlayerPosition pos g p = some (g, [Event.write p.Connection takenMsg]) :=
  ⟨isFreePos_eq_false g pos hbad,
   handlePlayerPosition_of_not_free pos g p (canPlayTurn_eq_true g p h2 ht)
     (isFreePos_eq_false g pos hbad)⟩

/-- Witness for C2: the seat to move sends -1. -/
theorem cellTaken_rejected_witness :
    twoSeats.isFreePos (-1) = false
      ∧ handlePlayerPosition (-1) twoSeats (handlerOf seatO)
          = some (twoSeats, [Event.write (handlerOf seatO).Connection takenMsg]) :=
  cellTaken_rejected twoSeats (handlerOf seatO) (-1) (by decide) (by decide)
    (Or.inl (by decide))

/-- C3: when fewer than two seats are present or the caller's connection is
not the current-turn connection, `handlePlayerPosition` returns the state
unchanged for every `pos`, its only output being the "not your turn" notice
to the caller. -/
theorem notYourTurn_rejected (g : Game) (p : Player) (pos : Int)
    (h : g.Players.length < 2 ∨ p.Connection ≠ g.CurrentPlayer.Connection) :
    handlePlayerPosition pos g p
      = some (g, [Event.write p.Connection notYourTurnMsg]) := by
  apply handlePlayerPosition_of_not_turn
  apply canPlayTurn_eq_false
  rcases h with h | h
  · exact Or.inl (by omega)
  · exact Or.inr h

/-- Witness for C3: the seat that is not to move sends the free cell 4. -/
theorem notYourTurn_rejected_witness :
    handlePlayerPosition 4 twoSeats (handlerOf seatX)
      = some (twoSeats, [Event.write (handlerOf seatX).Connection notYourTurnMsg]) :=
  notYourTurn_rejected twoSeats (handlerOf seatX) 4 (Or.inr (by decide))

/-- C4, evaluated at the failing input: in the reachable two-seat state
`reseated` the seat to move plays the free cell 1, the move is accepted, and
the turn afterwards is still that same seat. -/
theorem turn_stays_after_reseat :
    Reachable reseated ∧ reseated.Players.length = 2
      ∧ reseated.canPlayTurn (handlerOf seatO) = true ∧ reseated.isFreePos 1 = true
      ∧ (handlePlayerPosition 1 reseated (handlerOf seatO)).map
          (fun r => (mapGet r.1.Board 1, r.1.CurrentPlayer.Connection))
          = some (oSymbol, seatO.Connection) :=
  ⟨reachable_reseated, by decide, by decide, by decide, by decide⟩

/-- Witness for C5: with X on 0-3-6 the first held triple is the fourth one
and the winner symbol is X. -/
theorem getWinnerSymbol_spec_witness :
    CellsOK (winEve.playTurn seatX 6).Board
      ∧ (winEve.playTurn seatX 6).getWinnerSymbol = xSymbol :=
  ⟨by decide,
   (getWinnerSymbol_spec (winEve.playTurn seatX 6) (by decide)).2.1
     [[0, 1, 2], [3, 4, 5], [6, 7, 8]] [0, 3, 6] [[1, 4, 7], [2, 5, 8], [0, 4, 8], [2, 4, 6]]
     xSymbol rfl (Or.inl rfl) (by decide)
     (fun d hd hl =>
       (by decide : ∀ e ∈ [[0, 1, 2], [3, 4, 5], [6, 7, 8]],
          mapGet (winEve.playTurn seatX 6).Board (List.getD e 0 0)
            ≠ mapGet (winEve.playTurn seatX 6).Board (List.getD e 1 0)) d hd
         (hl.choose_spec.2.1.trans hl.choose_spec.2.2.1.symm))⟩

/-- C6: in a reachable two-seat state, an accepted move after which every
cell 0..8 holds a player mark and no triple is held by one mark returns with
every cell holding its own index string and the seat list, scores included,
as before. -/
theorem draw_resets_without_score (g : Game) (s : Player) (pos : Int)
    (hr : Reachable g) (h2 : g.Players.length = 2) (hs : s ∈ g.Players)
    (ht : g.canPlayTurn (handlerOf s) = true) (hf : g.isFreePos pos = true)
    (hfull : ∀ i ∈ cellIndices,
      IsPlayerSymbol (mapGet (g.playTurn (handlerOf s) pos).Board i))
    (hno : ∀ c ∈ winCombinations, ¬ PlayerLine (g.playTurn (handlerOf s) pos).Board c) :
    ∃ g1 ev, handlePlayerPosition pos g (handlerOf s) = some (g1, ev)
      ∧ (∀ i ∈ cellIndices, mapGet g1.Board i = toString i)
      ∧ g1.Players = g.Players := by
  have hinv := reachable_inv hr
  obtain ⟨a, b, hp, ha, hb1, _⟩ := seatsOK_two hinv.seats h2
  obtain ⟨ev, he⟩ := handlePlayerPosition_accepted pos g (handlerOf s) a b hp
    (seatShape_index ha) (Or.inr hb1) ht hf
  have hinv1 := inv_playTurn hinv hs (isFreePos_mem hf)
  have hw : (g.playTurn (handlerOf s) pos).getWinnerSymbol = noWinner := by
    rcases getWinnerSymbol_cases _ hinv1.cells with ⟨_, hn⟩ | ⟨hps, c, hc, hl⟩
    · exact hn
    · exact absurd ⟨_, hps, hl⟩ (hno c hc)
  have hfb : (g.playTurn (handlerOf s) pos).isFullBoard = true :=
    isFullBoard_of_cells _ hinv1.keys hfull
  have hws : ({ g.playTurn (handlerOf s) pos with
      CurrentPlayer := if g.CurrentPlayer.Index = 0 then b else a } : Game).getWinnerSymbol
        = noWinner := hw
  have hsr : ({ g.playTurn (handlerOf s) pos with
      CurrentPlayer := if g.CurrentPlayer.Index = 0 then b else a } : Game).shouldResetBoard
        = true := by
    simp only [Game.shouldResetBoard, Bool.or_eq_true]
    exact Or.inr hfb
  refine ⟨_, ev, he, ?_, ?_⟩
  · intro i hi
    unfold settled
    rw [hsr]
    exact mapGet_resetBoard _ i hi
  · unfold settled
    rw [hsr]
    simp [hws, Game.resetBoard]
    rfl

/-- Witness for C6: O fills the last cell 6 of a board without a line. -/
theorem draw_resets_without_score_witness :
    (handlePlayerPosition 6 drawEve (handlerOf seatO)).map Prod.fst
        = some { Board := emptyBoard, Players := [seatX, seatO],
                 CurrentPlayer := seatX, Watchers := [] }
      ∧ ∃ g1 ev, handlePlayerPosition 6 drawEve (handlerOf seatO) = some (g1, ev)
        ∧ (∀ i ∈ cellIndices, mapGet g1.Board i = toString i)
        ∧ g1.Players = drawEve.Players :=
  ⟨by decide,
   draw_resets_without_score drawEve seatO 6 reachable_drawEve (by decide) (by decide)
     (by decide) (by decide) (by decide)
     (fun c hc hl =>
       (by decide : ∀ e ∈ winCombinations,
          ¬ (mapGet (drawEve.playTurn (handlerOf seatO) 6).Board (List.getD e 0 0)
              = mapGet (drawEve.playTurn (handlerOf seatO) 6).Board (List.getD e 1 0)
            ∧ mapGet (drawEve.playTurn (handlerOf seatO) 6).Board (List.getD e 1 0)
              = mapGet (drawEve.playTurn (handlerOf seatO) 6).Board (List.getD e 2 0))) c hc
         ⟨hl.choose_spec.2.1.trans hl.choose_spec.2.2.1.symm,
          hl.choose_spec.2.2.1.trans hl.choose_spec.2.2.2.symm⟩)⟩

/-- C7, evaluated at the failing input: the lines "abc" and "" are scanned to
position 0, and when the sender is to move and cell 0 is empty the line "abc"
puts the sender's mark on cell 0. -/
theorem nonNumeric_line_plays_cell_zero :
    scanPos "abc" = 0 ∧ scanPos "" = 0
      ∧ twoSeats.canPlayTurn (handlerOf seatO) = true
      ∧ mapGet twoSeats.Board 0 = "0"
      ∧ (handleLine twoSeats (handlerOf seatO) "abc").map (fun r => mapGet r.1.Board 0)
          = some oSymbol := by
  decide

/-- C8 as stated fails: for the out-of-range position 9 in the state
`twoSeats`, the seat to move is told "already taken" while the other seat is
told "not your turn". -/
theorem invalidPos_error_depends_on_turn :
    handlePlayerPosition 9 twoSeats (handlerOf seatO)
        = some (twoSeats, [Event.write seatO.Connection takenMsg])
      ∧ handlePlayerPosition 9 twoSeats (handlerOf seatX)
        = some (twoSeats, [Event.write seatX.Connection notYourTurnMsg])
      ∧ takenMsg ≠ notYourTurnMsg := by
  decide

/-- C8, amended: in a two-seat state a position outside [0,9) or on an
occupied cell leaves the whole state unchanged whoever sends it; the caller
is told "already taken" when its connection is the current-turn connection
and "not your turn" otherwise. -/
theorem invalidPos_rejected (g : Game) (p : Player) (pos : Int)
    (h2 : g.Players.length = 2)
    (hbad : pos < 0 ∨ 9 ≤ pos ∨ mapGet g.Board pos = xSymbol ∨ mapGet g.Board pos = oSymbol) :
    handlePlayerPosition pos g p
      = some (g, [Event.write p.Connection
          (if p.Connection = g.CurrentPlayer.Connection then takenMsg
           else notYourTurnMsg)]) := by
  by_cases ht : p.Connection = g.CurrentPlayer.Connection
  · rw [if_pos ht]
    exact handlePlayerPosition_of_not_free pos g p (canPlayTurn_eq_true g p h2 ht)
      (isFreePos_eq_false g pos hbad)
  · rw [if_neg ht]
    exact handlePlayerPosition_of_not_turn pos g p (canPlayTurn_eq_false g p (Or.inr ht))

/-- Witness for C8 amended: the seat that is not to move sends the occupied
cell 0 of `winEve`. -/
theorem invalidPos_rejected_witness :
    handlePlayerPosition 0 winEve (handlerOf seatO)
      = some (winEve, [Event.write (handlerOf seatO).Connection
          (if (handlerOf seatO).Connection = winEve.CurrentPlayer.Connection then takenMsg
           else notYourTurnMsg)]) :=
  invalidPos_rejected winEve (handlerOf seatO) 0 (by decide) (Or.inr (Or.inr (Or.inl (by decide))))

/-- C9: with fewer than two seats, accepting a connection appends one seat
whose index is the previous seat count, whose symbol is X for index 0 and O
for index 1 and whose score is 0, makes that seat the current player (so the
second seat is the one allowed to move), and leaves the board and the
earlier seats as they were. -/
theorem join_appends_seat (g : Game) (c : Conn) (h : g.Players.length < 2) :
    ∃ g1 ev np, acceptConnection g c = some (g1, ev)
      ∧ g1.Players = g.Players ++ [np]
      ∧ np.Index = (g.Players.length : Int) ∧ np.Connection = c ∧ np.Score = 0
      ∧ (np.Index = 0 → np.Symbol = xSymbol) ∧ (np.Index = 1 → np.Symbol = oSymbol)
      ∧ g1.CurrentPlayer = np ∧ g1.Board = g.Board
      ∧ (g.Players.length = 1 → g1.canPlayTurn np = true) := by
  rcases hP : g.Players with _ | ⟨a, _ | ⟨b, t⟩⟩
  · refine ⟨{ g with Players := [⟨0, c, xSymbol, 0⟩], CurrentPlayer := ⟨0, c, xSymbol, 0⟩ },
      [], ⟨0, c, xSymbol, 0⟩, ?_, ?_⟩
    · simp [acceptConnection, Game.isFullPlaces, hP]
    · simp
  · have he : ∃ ev, acceptConnection g c = some
        ({ g with Players := [a, ⟨1, c, oSymbol, 0⟩], CurrentPlayer := ⟨1, c, oSymbol, 0⟩ },
          ev) := by
      simp [acceptConnection, Game.isFullPlaces, hP]
    obtain ⟨ev, he⟩ := he
    refine ⟨_, ev, ⟨1, c, oSymbol, 0⟩, he, ?_⟩
    simp [Game.canPlayTurn, Game.isFullPlaces]
  · exfalso
    rw [hP] at h
    simp only [List.length_cons] at h
    omega

/-- Witness for C9: the second connection joins a one-seat game. -/
theorem join_appends_seat_witness :
    ∃ g1 ev np, acceptConnection { newGame with Players := [seatX], CurrentPlayer := seatX } 2
        = some (g1, ev)
      ∧ g1.Players = [seatX] ++ [np]
      ∧ np.Index = (([seatX] : List Player).length : Int) ∧ np.Connection = 2 ∧ np.Score = 0
      ∧ (np.Index = 0 → np.Symbol = xSymbol) ∧ (np.Index = 1 → np.Symbol = oSymbol)
      ∧ g1.CurrentPlayer = np ∧ g1.Board = newGame.Board
      ∧ (([seatX] : List Player).length = 1 → g1.canPlayTurn np = true) :=
  join_appends_seat { newGame with Players := [seatX], CurrentPlayer := seatX } 2 (by decide)

/-- C10: with two seats present an accepted connection is rejected (told the
game is full, then closed) and the state is returned unchanged; and every
reachable state has at most two seats. -/
theorem third_connection_rejected :
    (∀ (g : Game) (c : Conn), g.Players.length = 2 →
        acceptConnection g c = some (g, [Event.write c gameFullMsg, Event.close c]))
      ∧ (∀ g : Game, Reachable g → g.Players.length ≤ 2) := by
  constructor
  · intro g c h2
    simp [acceptConnection, Game.isFullPlaces, h2, rejectConnection]
  · intro g hr
    exact seatsOK_length (reachable_inv hr).seats

/-- Witness for C10: connection 3 arrives at `twoSeats`. -/
theorem third_connection_rejected_witness :
    acceptConnection twoSeats 3 = some (twoSeats, [Event.write 3 gameFullMsg, Event.close 3])
      ∧ twoSeats.Players.length ≤ 2 :=
  ⟨third_connection_rejected.1 twoSeats 3 (by decide),
   third_connection_rejected.2 twoSeats reachable_twoSeats⟩

/-! ## Leaving -/

theorem removeSeat_of_forall_ne (ps : List Player) (c : Conn)
    (h : ∀ p ∈ ps, p.Connection ≠ c) : removeSeat ps c = ps := by
  induction ps with
  | nil => rfl
  | cons p rest ih =>
    have hp : p.Connection ≠ c := h p (List.mem_cons_self _ _)
    simp only [removeSeat, if_neg hp]
    rw [ih fun q hq => h q (List.mem_cons_of_mem _ hq)]

theorem handlePlayerQuit_eq (g : Game) (pl : Player) :
    handlePlayerQuit g pl =
      match removeSeat g.Players pl.Connection with
      | [] => none
      | p0 :: rest =>
        some ({ g.resetBoard with Players := { p0 with Score := 0 } :: rest },
              [Event.close pl.Connection, Event.write p0.Connection opponentLeftMsg]) :=
  rfl

/-- Leaving a game whose only seat is the caller's: `g.Players[0]` panics. -/
theorem handlePlayerQuit_single (g : Game) (a pl : Player) (hp : g.Players = [a])
    (hc : pl.Connection = a.Connection) : handlePlayerQuit g pl = none := by
  rw [handlePlayerQuit_eq, hp]
  simp [removeSeat, hc]

theorem handlePlayerQuit_two (g : Game) (a b pl : Player) (hp : g.Players = [a, b])
    (hne : a.Connection ≠ b.Connection)
    (hc : pl.Connection = a.Connection ∨ pl.Connection = b.Connection) :
    ∃ t, ((pl.Connection = a.Connection ∧ t = b) ∨ (pl.Connection = b.Connection ∧ t = a))
      ∧ handlePlayerQuit g pl =
          some ({ g.resetBoard with Players := [{ t with Score := 0 }] },
                [Event.close pl.Connection, Event.write t.Connection opponentLeftMsg]) := by
  rw [handlePlayerQuit_eq, hp]
  rcases hc with hc | hc
  · exact ⟨b, Or.inl ⟨hc, rfl⟩, by simp [removeSeat, hc]⟩
  · exact ⟨a, Or.inr ⟨hc, rfl⟩, by simp [removeSeat, hc, hne]⟩

theorem handlePlayerQuit_unknown (g : Game) (pl p0 : Player) (rest : List Player)
    (hp : g.Players = p0 :: rest) (hu : ∀ p ∈ g.Players, p.Connection ≠ pl.Connection) :
    handlePlayerQuit g pl =
      some ({ g.resetBoard with Players := { p0 with Score := 0 } :: rest },
            [Event.close pl.Connection, Event.write p0.Connection opponentLeftMsg]) := by
  rw [handlePlayerQuit_eq, removeSeat_of_forall_ne _ _ hu, hp]

/-! ## Board and turn after an accepted move -/

theorem settled_board (g : Game) (a b : Player) :
    (settled g a b).Board = if g.shouldResetBoard then g.resetBoard.Board else g.Board := by
  unfold settled
  by_cases hw : g.getWinnerSymbol = noWinner <;> by_cases hr : g.shouldResetBoard = true <;>
    simp [hw, hr, Game.resetBoard]

theorem settled_currentPlayer (g : Game) (a b : Player) :
    (settled g a b).CurrentPlayer = g.CurrentPlayer := by
  unfold settled
  by_cases hw : g.getWinnerSymbol = noWinner <;> by_cases hr : g.shouldResetBoard = true <;>
    simp [hw, hr, Game.resetBoard]

theorem settled_connections (g : Game) (a b : Player) (hp : g.Players = [a, b]) :
    (settled g a b).Players.map Player.Connection = g.Players.map Player.Connection := by
  unfold settled
  by_cases hw : g.getWinnerSymbol = noWinner <;> by_cases hr : g.shouldResetBoard = true <;>
    by_cases hs : a.Symbol = g.getWinnerSymbol <;>
    simp [hw, hr, hs, hp, Game.resetBoard, Player.incrementScore]

/-- Without a winner and with a cell left, `settleRound` changes nothing. -/
theorem settled_of_quiet (g : Game) (a b : Player) (hw : g.getWinnerSymbol = noWinner)
    (hf : g.isFullBoard = false) : settled g a b = g := by
  unfold settled
  simp [hw, hf, Game.shouldResetBoard]

theorem mem_of_key (b : List (Int × String)) (hn : (b.map Prod.fst).Nodup) (k : Int)
    (hk : k ∈ b.map Prod.fst) : (k, mapGet b k) ∈ b := by
  obtain ⟨kv, hkv, he⟩ := List.mem_map.1 hk
  obtain ⟨k0, v0⟩ := kv
  simp only at he
  subst he
  rw [mapGet_of_mem b hn k0 v0 hkv]
  exact hkv

theorem cellIndices_nodup : cellIndices.Nodup := by decide

theorem isFullBoard_false_of_cell (g : Game) (hk : g.Board.map Prod.fst = cellIndices)
    (i : Int) (hi : i ∈ cellIndices) (hn : ¬ IsPlayerSymbol (mapGet g.Board i)) :
    g.isFullBoard = false := by
  have hmem : (i, mapGet g.Board i) ∈ g.Board :=
    mem_of_key g.Board (hk ▸ cellIndices_nodup) i (hk ▸ hi)
  by_contra hfull
  simp only [Bool.not_eq_false] at hfull
  unfold Game.isFullBoard at hfull
  rw [List.all_eq_true] at hfull
  have := hfull _ hmem
  apply hn
  simp only [Bool.not_eq_true', Bool.and_eq_false_imp, bne_iff_ne, ne_eq,
    bne_eq_false_iff_eq] at this
  by_cases hx : mapGet g.Board i = xSymbol
  · exact Or.inl hx
  · exact Or.inr (this hx)

/-- A board that was just reset shows no winner and is not full. -/
theorem quiet_resetBoard (g : Game) (hk : g.Board.map Prod.fst = cellIndices) :
    g.resetBoard.getWinnerSymbol = noWinner ∧ g.resetBoard.isFullBoard = false := by
  have h0 : (0 : Int) ∈ cellIndices := by decide
  have hnp : ∀ i ∈ cellIndices, ¬ IsPlayerSymbol (mapGet g.resetBoard.Board i) := by
    intro i hi hp
    rw [mapGet_resetBoard g i hi] at hp
    rcases hp with hp | hp
    · exact emptyCell_ne_x i hi hp
    · exact emptyCell_ne_o i hi hp
  constructor
  · rcases getWinnerSymbol_cases g.resetBoard (cellsOK_reset g) with ⟨_, hn⟩ | ⟨hp, c, hc, hl⟩
    · exact hn
    · exfalso
      apply hnp _ (winCombinations_cells c hc).1
      rw [hl.1]
      exact hp
  · exact isFullBoard_false_of_cell _ (keys_resetBoard g hk) 0 h0 (hnp 0 h0)

theorem quiet_congr {g g1 : Game} (h : g1.Board = g.Board) :
    g1.getWinnerSymbol = g.getWinnerSymbol ∧ g1.isFullBoard = g.isFullBoard := by
  simp [Game.getWinnerSymbol, Game.isFullBoard, h]

theorem quiet_settled (g : Game) (a b : Player) (hk : g.Board.map Prod.fst = cellIndices) :
    (settled g a b).getWinnerSymbol = noWinner ∧ (settled g a b).isFullBoard = false := by
  by_cases hr : g.shouldResetBoard = true
  · have hb : (settled g a b).Board = g.resetBoard.Board := by
      rw [settled_board, if_pos hr]
    rw [(quiet_congr hb).1, (quiet_congr hb).2]
    exact quiet_resetBoard g hk
  · have hb : (settled g a b).Board = g.Board := by
      rw [settled_board, if_neg hr]
    rw [(quiet_congr hb).1, (quiet_congr hb).2]
    simp only [Game.shouldResetBoard, Bool.or_eq_true, bne_iff_ne, ne_eq, not_or,
      Decidable.not_not, Bool.not_eq_true] at hr
    exact hr

/-! ## The second invariant -/

theorem inv2_newGame : Inv2 newGame where
  distinct := by decide
  turn := by decide
  quiet := by decide

theorem inv2_acceptConnection {g : Game} (h2 : Inv2 g) (c : Conn)
    (hf : ∀ p ∈ g.Players, p.Connection ≠ c) {g1 : Game} {ev : List Event}
    (he : acceptConnection g c = some (g1, ev)) : Inv2 g1 := by
  unfold acceptConnection at he
  rcases hP : g.Players with _ | ⟨a, _ | ⟨b, t⟩⟩
  · simp only [Game.isFullPlaces, hP, List.length_nil, List.nil_append] at he
    simp at he
    rw [← he.1]
    exact ⟨by simp, by simp, h2.quiet⟩
  · simp only [Game.isFullPlaces, hP, List.length_singleton] at he
    simp at he
    rw [← he.1]
    have hac : a.Connection ≠ c := hf a (by rw [hP]; exact List.mem_singleton_self a)
    exact ⟨by simp [hac], by simp, h2.quiet⟩
  · by_cases hl : t = []
    · subst hl
      simp [Game.isFullPlaces, hP] at he
      exact he.1 ▸ h2
    · simp [Game.isFullPlaces, hP] at he
      exact absurd he.1 hl

theorem inv2_handlePlayerPosition {g : Game} (h : Inv g) (h2 : Inv2 g) (p : Player)
    (pos : Int) {g1 : Game} {ev : List Event}
    (he : handlePlayerPosition pos g p = some (g1, ev)) : Inv2 g1 := by
  by_cases ht : g.canPlayTurn p = true
  · by_cases hf : g.isFreePos pos = true
    · obtain ⟨a, b, hp, ha, hb, _⟩ := seatsOK_two h.seats (canPlayTurn_length ht)
      obtain ⟨ev1, h1⟩ := handlePlayerPosition_accepted pos g p a b hp
        (seatShape_index ha) (Or.inr hb) ht hf
      rw [h1] at he
      simp only [Option.some.injEq, Prod.mk.injEq] at he
      rw [← he.1]
      have hp1 : ({ g.playTurn p pos with
          CurrentPlayer := if g.CurrentPlayer.Index = 0 then b else a } : Game).Players
            = [a, b] := hp
      have hk1 : ({ g.playTurn p pos with
          CurrentPlayer := if g.CurrentPlayer.Index = 0 then b else a } : Game).Board.map
            Prod.fst = cellIndices :=
        keys_mapSet_cell _ _ _ h.keys (isFreePos_mem hf)
      have hconn := settled_connections _ a b hp1
      refine ⟨?_, ?_, quiet_settled _ a b hk1⟩
      · rw [hconn, hp1, ← hp]
        exact h2.distinct
      · intro _
        rw [hconn, hp1, settled_currentPlayer]
        by_cases h0 : g.CurrentPlayer.Index = 0
        · simp [h0]
        · simp [h0]
    · simp only [Bool.not_eq_true] at hf
      rw [handlePlayerPosition_of_not_free pos g _ ht hf] at he
      simp only [Option.some.injEq, Prod.mk.injEq] at he
      exact he.1 ▸ h2
  · simp only [Bool.not_eq_true] at ht
    rw [handlePlayerPosition_of_not_turn pos g _ ht] at he
    simp only [Option.some.injEq, Prod.mk.injEq] at he
    exact he.1 ▸ h2

theorem inv2_handlePlayerQuit {g : Game} (h : Inv g) (h2 : Inv2 g) {s : Player}
    (hs : s ∈ g.Players) (pl : Player) (hc : pl.Connection = s.Connection) {g1 : Game}
    {ev : List Event} (he : handlePlayerQuit g pl = some (g1, ev)) : Inv2 g1 := by
  have hseats := h.seats
  have hd := h2.distinct
  rcases hP : g.Players with _ | ⟨a, _ | ⟨b, _ | ⟨d, t⟩⟩⟩
  · rw [hP] at hs
    simp at hs
  · rw [hP] at hs
    have hsa : s = a := List.mem_singleton.1 hs
    rw [handlePlayerQuit_single g a pl hP (hsa ▸ hc)] at he
    simp at he
  · rw [hP] at hs hd
    have hne : a.Connection ≠ b.Connection := by
      simp only [List.map_cons, List.map_nil, List.nodup_cons, List.mem_singleton] at hd
      exact hd.1
    have hcc : pl.Connection = a.Connection ∨ pl.Connection = b.Connection := by
      simp only [List.mem_cons, List.mem_singleton, List.mem_nil_iff, or_false] at hs
      rcases hs with rfl | rfl
      · exact Or.inl hc
      · exact Or.inr hc
    obtain ⟨t, _, ht⟩ := handlePlayerQuit_two g a b pl hP hne hcc
    rw [ht] at he
    simp only [Option.some.injEq, Prod.mk.injEq] at he
    rw [← he.1]
    refine ⟨by simp, by simp, ?_⟩
    have hb : ({ g.resetBoard with Players := [{ t with Score := 0 }] } : Game).Board
        = g.resetBoard.Board := rfl
    rw [(quiet_congr hb).1, (quiet_congr hb).2]
    exact quiet_resetBoard g h.keys
  · rw [hP] at hseats
    exact absurd hseats (by simp [SeatsOK])

/-- Every reachable state satisfies the second invariant. -/
theorem reachable_inv2 {g : Game} (h : Reachable g) : Inv2 g := by
  induction h with
  | init => exact inv2_newGame
  | join g c g1 ev _ _ hf he ih => exact inv2_acceptConnection ih c hf he
  | move g s pos g1 ev hr _ he ih =>
    exact inv2_handlePlayerPosition (reachable_inv hr) ih _ pos he
  | leave g s g1 ev hr hs he ih =>
    exact inv2_handlePlayerQuit (reachable_inv hr) ih hs _ rfl he

/-! ## More reachable states -/

theorem reachable_oneSeat : Reachable oneSeat :=
  reachable_run Reachable.init [Step.join 1] (by decide)

theorem reachable_afterWin : Reachable afterWin :=
  reachable_run reachable_winEve [Step.move 1 6, Step.move 2 0] (by decide)

theorem reachable_widowed : Reachable widowed :=
  reachable_run reachable_twoSeats [Step.leave 1] (by decide)

theorem reachable_rejoined : Reachable rejoined :=
  reachable_run reachable_widowed [Step.join 3] (by decide)

theorem reachable_reseatedEve : Reachable reseatedEve :=
  reachable_run reachable_reseated [Step.move 2 1] (by decide)

/-! ## Properties of the specification, C11 to C20 -/

/-- C11: in a reachable two-seat state, `handlePlayerQuit` called for the
connection of either seat returns, removes exactly that seat so that the one
remaining seat is the other player's, sets that seat's score to 0 and leaves
every cell 0..8 holding its own index string. -/
theorem leave_full_game (g : Game) (s pl : Player) (hr : Reachable g)
    (h2 : g.Players.length = 2) (hs : s ∈ g.Players)
    (hc : pl.Connection = s.Connection) :
    ∃ g1 ev t, handlePlayerQuit g pl = some (g1, ev)
      ∧ (g.Players = [s, t] ∨ g.Players = [t, s]) ∧ t.Connection ≠ s.Connection
      ∧ g1.Players = [{ t with Score := 0 }]
      ∧ (∀ i ∈ cellIndices, mapGet g1.Board i = toString i) := by
  obtain ⟨a, b, hp, _, _, _⟩ := seatsOK_two (reachable_inv hr).seats h2
  have hd := (reachable_inv2 hr).distinct
  rw [hp] at hs hd
  have hne : a.Connection ≠ b.Connection := by
    simp only [List.map_cons, List.map_nil, List.nodup_cons, List.mem_singleton] at hd
    exact hd.1
  simp only [List.mem_cons, List.mem_singleton, List.mem_nil_iff, or_false] at hs
  rcases hs with rfl | rfl
  · obtain ⟨t, hcase, he⟩ := handlePlayerQuit_two g s b pl hp hne (Or.inl hc)
    rcases hcase with ⟨_, rfl⟩ | ⟨hb, _⟩
    · exact ⟨_, _, t, he, Or.inl hp, fun e => hne e.symm,
        rfl, fun i hi => mapGet_resetBoard g i hi⟩
    · exact absurd (hc.symm.trans hb) hne
  · obtain ⟨t, hcase, he⟩ := handlePlayerQuit_two g a s pl hp hne (Or.inr hc)
    rcases hcase with ⟨ha, _⟩ | ⟨_, rfl⟩
    · exact absurd (ha.symm.trans hc) hne
    · exact ⟨_, _, t, he, Or.inr hp, hne, rfl, fun i hi => mapGet_resetBoard g i hi⟩

/-- Witness for C11: X, with score 1, leaves `afterWin`; O remains with
score 0 on an empty board. -/
theorem leave_full_game_witness :
    ∃ g1 ev t, handlePlayerQuit afterWin (handlerOf seatX) = some (g1, ev)
      ∧ (afterWin.Players = [{ seatX with Score := 1 }, t]
          ∨ afterWin.Players = [t, { seatX with Score := 1 }])
      ∧ t.Connection ≠ ({ seatX with Score := 1 } : Player).Connection
      ∧ g1.Players = [{ t with Score := 0 }]
      ∧ (∀ i ∈ cellIndices, mapGet g1.Board i = toString i) :=
  leave_full_game afterWin { seatX with Score := 1 } (handlerOf seatX) reachable_afterWin
    (by decide) (by decide) (by decide)

/-- C12, evaluated at the failing input: in the reachable state `oneSeat` the
only seated player leaves and `handlePlayerQuit` does not return: after the
seat is removed the list is empty and `g.Players[0]` is out of range. -/
theorem leave_only_seat_panics :
    Reachable oneSeat ∧ oneSeat.Players = [seatX]
      ∧ removeSeat oneSeat.Players (handlerOf seatX).Connection = []
      ∧ handlePlayerQuit oneSeat (handlerOf seatX) = none :=
  ⟨reachable_oneSeat, by decide, by decide, by decide⟩

/-- C13 as stated fails: connection 9 holds no seat of `afterWin`, yet
`handlePlayerQuit` called for it resets the board and sets the first seat's
score from 1 to 0. -/
theorem leave_unknown_resets :
    (∀ p ∈ afterWin.Players, p.Connection ≠ stranger.Connection)
      ∧ afterWin.Board ≠ emptyBoard ∧ afterWin.Players.map Player.Score = [1, 0]
      ∧ (handlePlayerQuit afterWin stranger).map
          (fun r => (r.1.Board, r.1.Players.map Player.Score)) = some (emptyBoard, [0, 0]) := by
  decide

/-- C13, amended: in a state with at least one seat, `handlePlayerQuit`
called for a connection that holds no seat returns, removes no seat and keeps
the turn, but resets the board and sets the score of the first seat to 0;
its output is the close of that connection and the departure notice to the
first seat. -/
theorem leave_unknown_effect (g : Game) (pl p0 : Player) (rest : List Player)
    (hp : g.Players = p0 :: rest) (hu : ∀ p ∈ g.Players, p.Connection ≠ pl.Connection) :
    ∃ g1 ev, handlePlayerQuit g pl = some (g1, ev)
      ∧ g1.Players = { p0 with Score := 0 } :: rest
      ∧ g1.CurrentPlayer = g.CurrentPlayer
      ∧ (∀ i ∈ cellIndices, mapGet g1.Board i = toString i)
      ∧ ev = [Event.close pl.Connection, Event.write p0.Connection opponentLeftMsg] :=
  ⟨_, _, handlePlayerQuit_unknown g pl p0 rest hp hu, rfl, rfl,
    fun i hi => mapGet_resetBoard g i hi, rfl⟩

/-- Witness for C13 amended: connection 9 at `afterWin`. -/
theorem leave_unknown_effect_witness :
    ∃ g1 ev, handlePlayerQuit afterWin stranger = some (g1, ev)
      ∧ g1.Players = { ({ seatX with Score := 1 } : Player) with Score := 0 } :: [seatO]
      ∧ g1.CurrentPlayer = afterWin.CurrentPlayer
      ∧ (∀ i ∈ cellIndices, mapGet g1.Board i = toString i)
      ∧ ev = [Event.close stranger.Connection,
              Event.write ({ seatX with Score := 1 } : Player).Connection opponentLeftMsg] :=
  leave_unknown_effect afterWin stranger { seatX with Score := 1 } [seatO] rfl (by decide)

/-- Effect of an ordinary accepted move, as far as it holds everywhere: in a
reachable two-seat state, an accepted move that completes no triple and
leaves a cell empty returns with the caller's symbol on cell `pos`, every
other cell and the set of cells as before, and the seat list, scores
included, unchanged; the new current player is the second seat when the old
current player has index 0 and the first seat otherwise. -/
theorem ordinary_move_effect (g : Game) (s : Player) (pos : Int)
    (hr : Reachable g) (h2 : g.Players.length = 2) (hs : s ∈ g.Players)
    (ht : g.canPlayTurn (handlerOf s) = true) (hf : g.isFreePos pos = true)
    (hnw : ∀ c ∈ winCombinations, ¬ PlayerLine (g.playTurn (handlerOf s) pos).Board c)
    (hnf : ∃ i ∈ cellIndices,
      ¬ IsPlayerSymbol (mapGet (g.playTurn (handlerOf s) pos).Board i)) :
    ∃ g1 ev, handlePlayerPosition pos g (handlerOf s) = some (g1, ev)
      ∧ mapGet g1.Board pos = s.Symbol
      ∧ (∀ j, j ≠ pos → mapGet g1.Board j = mapGet g.Board j)
      ∧ g1.Board.map Prod.fst = g.Board.map Prod.fst
      ∧ g1.Players = g.Players ∧ g1.Watchers = g.Watchers
      ∧ ∃ a b, g.Players = [a, b]
          ∧ g1.CurrentPlayer = if g.CurrentPlayer.Index = 0 then b else a := by
  have hinv := reachable_inv hr
  obtain ⟨a, b, hp, ha, hb1, _⟩ := seatsOK_two hinv.seats h2
  obtain ⟨ev, he⟩ := handlePlayerPosition_accepted pos g (handlerOf s) a b hp
    (seatShape_index ha) (Or.inr hb1) ht hf
  have hinv1 := inv_playTurn hinv hs (isFreePos_mem hf)
  have hw : (g.playTurn (handlerOf s) pos).getWinnerSymbol = noWinner := by
    rcases getWinnerSymbol_cases _ hinv1.cells with ⟨_, hn⟩ | ⟨hps, c, hc, hl⟩
    · exact hn
    · exact absurd ⟨_, hps, hl⟩ (hnw c hc)
  obtain ⟨i, hi, hni⟩ := hnf
  have hfb : (g.playTurn (handlerOf s) pos).isFullBoard = false :=
    isFullBoard_false_of_cell _ hinv1.keys i hi hni
  have hq := settled_of_quiet
    { g.playTurn (handlerOf s) pos with
      CurrentPlayer := if g.CurrentPlayer.Index = 0 then b else a } a b hw hfb
  rw [hq] at he
  refine ⟨_, ev, he, ?_, ?_, ?_, rfl, rfl, a, b, hp, rfl⟩
  · simp [Game.playTurn, handlerOf, mapGet_mapSet]
  · intro j hj
    simp [Game.playTurn, mapGet_mapSet, hj]
  · exact (keys_mapSet_cell _ _ _ hinv.keys (isFreePos_mem hf)).trans hinv.keys.symm

/-- The ordinary-move lemma applied to O's opening move 4 in `twoSeats`:
there the turn passes to the other seat. -/
theorem ordinary_move_effect_witness :
    (handlePlayerPosition 4 twoSeats (handlerOf seatO)).map
        (fun r => r.1.CurrentPlayer.Connection) = some seatX.Connection
      ∧ ∃ g1 ev, handlePlayerPosition 4 twoSeats (handlerOf seatO) = some (g1, ev)
        ∧ mapGet g1.Board 4 = seatO.Symbol
        ∧ (∀ j, j ≠ 4 → mapGet g1.Board j = mapGet twoSeats.Board j)
        ∧ g1.Board.map Prod.fst = twoSeats.Board.map Prod.fst
        ∧ g1.Players = twoSeats.Players ∧ g1.Watchers = twoSeats.Watchers
        ∧ ∃ a b, twoSeats.Players = [a, b]
            ∧ g1.CurrentPlayer = if twoSeats.CurrentPlayer.Index = 0 then b else a :=
  ⟨by decide,
   ordinary_move_effect twoSeats seatO 4 reachable_twoSeats (by decide) (by decide)
    (by decide) (by decide)
    (fun c hc hl =>
      (by decide : ∀ e ∈ winCombinations,
          mapGet (twoSeats.playTurn (handlerOf seatO) 4).Board (List.getD e 0 0)
            ≠ mapGet (twoSeats.playTurn (handlerOf seatO) 4).Board (List.getD e 1 0)) c hc
        (hl.choose_spec.2.1.trans hl.choose_spec.2.2.1.symm))
    ⟨0, by decide, by decide⟩⟩

/-- C15, evaluated at the failing input: in the reachable two-seat state
`reseated` the seat to move (connection 2) plays the free cell 1; the move
completes no triple and leaves cells empty.  Cell 1 gets the caller's symbol
and all other cells, the seat list and the scores are as before, but the
turn does not differ: the current player is the same as before the move. -/
theorem ordinary_move_keeps_turn_after_reseat :
    Reachable reseated ∧ reseated.Players.length = 2
      ∧ reseated.canPlayTurn (handlerOf seatO) = true ∧ reseated.isFreePos 1 = true
      ∧ (reseated.playTurn (handlerOf seatO) 1).getWinnerSymbol = noWinner
      ∧ (reseated.playTurn (handlerOf seatO) 1).isFullBoard = false
      ∧ (handlePlayerPosition 1 reseated (handlerOf seatO)).map
          (fun r => (r.1.Board, r.1.Players, r.1.CurrentPlayer))
          = some (mapSet reseated.Board 1 seatO.Symbol, reseated.Players,
                  reseated.CurrentPlayer)
      ∧ reseated.CurrentPlayer.Connection = (handlerOf seatO).Connection :=
  ⟨reachable_reseated, by decide, by decide, by decide, by decide, by decide, by decide,
   by decide⟩

/-- C16, evaluated at the failing input: after both players joined and the
first one left, the remaining seat sits at position 0 with index 1 and O; the
next player to join is again given index 1 and O, so the two seats of the
reachable state `rejoined` share index and symbol. -/
theorem seats_share_index_after_rejoin :
    Reachable widowed
      ∧ widowed.Players.map (fun p => (p.Index, p.Symbol)) = [(1, oSymbol)]
      ∧ Reachable rejoined
      ∧ rejoined.Players.map (fun p => (p.Index, p.Symbol)) = [(1, oSymbol), (1, oSymbol)] :=
  ⟨reachable_widowed, by decide, reachable_rejoined, by decide⟩

/-- C17: in every reachable state `getWinnerSymbol` is `none` and
`isFullBoard` is false. -/
theorem round_over_not_observable (g : Game) (hr : Reachable g) :
    g.getWinnerSymbol = noWinner ∧ g.isFullBoard = false :=
  (reachable_inv2 hr).quiet

/-- Witness for C17: the state reached by X's winning move from `winEve`. -/
theorem round_over_not_observable_witness :
    Reachable afterWin ∧ afterWin.getWinnerSymbol = noWinner
      ∧ afterWin.isFullBoard = false :=
  ⟨reachable_afterWin, round_over_not_observable afterWin reachable_afterWin⟩

/-- C18: in every reachable state with two seats the connection of
`CurrentPlayer` is the connection of one of the seats. -/
theorem turn_is_seated (g : Game) (hr : Reachable g) (h2 : g.Players.length = 2) :
    ∃ p ∈ g.Players, p.Connection = g.CurrentPlayer.Connection := by
  obtain ⟨p, hp, he⟩ := List.mem_map.1 ((reachable_inv2 hr).turn h2)
  exact ⟨p, hp, he⟩

/-- Witness for C18: the state `reseated`. -/
theorem turn_is_seated_witness :
    ∃ p ∈ reseated.Players, p.Connection = reseated.CurrentPlayer.Connection :=
  turn_is_seated reseated reachable_reseated (by decide)

/-- C19: every reachable state has exactly the cells 0..8, each holding X, O
or its own index string; `resetBoard` yields exactly these cells, all holding
their index string, on the empty map of `main` and on every board with these
cells; and accepting a connection, a departure and a move with any position
(accepted or rejected) lead from a reachable state to a board of this
form. -/
theorem board_wellFormed :
    (∀ g : Game, Reachable g → g.Board.map Prod.fst = cellIndices ∧ CellsOK g.Board)
      ∧ (newGame.Board.map Prod.fst = cellIndices
          ∧ ∀ i ∈ cellIndices, mapGet newGame.Board i = toString i)
      ∧ (∀ g : Game, g.Board.map Prod.fst = cellIndices →
          g.resetBoard.Board.map Prod.fst = cellIndices
            ∧ ∀ i ∈ cellIndices, mapGet g.resetBoard.Board i = toString i)
      ∧ (∀ (g : Game) (c : Conn) (g1 : Game) (ev : List Event), Reachable g →
          acceptConnection g c = some (g1, ev) →
          g1.Board.map Prod.fst = cellIndices ∧ CellsOK g1.Board)
      ∧ (∀ (g : Game) (s : Player) (g1 : Game) (ev : List Event), Reachable g →
          s ∈ g.Players → handlePlayerQuit g (handlerOf s) = some (g1, ev) →
          g1.Board.map Prod.fst = cellIndices ∧ CellsOK g1.Board)
      ∧ (∀ (g : Game) (s : Player) (pos : Int) (g1 : Game) (ev : List Event), Reachable g →
          s ∈ g.Players → handlePlayerPosition pos g (handlerOf s) = some (g1, ev) →
          g1.Board.map Prod.fst = cellIndices ∧ CellsOK g1.Board) := by
  refine ⟨?_, ⟨by decide, by decide⟩, ?_, ?_, ?_, ?_⟩
  · intro g hr
    exact ⟨(reachable_inv hr).keys, (reachable_inv hr).cells⟩
  · intro g hk
    exact ⟨keys_resetBoard g hk, mapGet_resetBoard g⟩
  · intro g c g1 ev hr he
    have h := inv_acceptConnection (reachable_inv hr) c he
    exact ⟨h.keys, h.cells⟩
  · intro g s g1 ev hr _ he
    have h := inv_handlePlayerQuit (reachable_inv hr) _ he
    exact ⟨h.keys, h.cells⟩
  · intro g s pos g1 ev hr hs he
    have h := inv_handlePlayerPosition (reachable_inv hr) hs pos he
    exact ⟨h.keys, h.cells⟩

/-- Witness for C19: the board of `drawEve`, and the out-of-range position 9
sent there by the seat to move. -/
theorem board_wellFormed_witness :
    (drawEve.Board.map Prod.fst = cellIndices ∧ CellsOK drawEve.Board)
      ∧ (drawEve.Board.map Prod.fst = cellIndices ∧ CellsOK drawEve.Board) :=
  ⟨board_wellFormed.1 drawEve reachable_drawEve,
   board_wellFormed.2.2.2.2.2 drawEve seatO 9 drawEve
     [Event.write (handlerOf seatO).Connection takenMsg] reachable_drawEve (by decide)
     (by decide)⟩

/-- C20, evaluated at the failing input: in the reachable state `reseatedEve`
the seat to move (connection 2) completes 0-1-2; its score goes up and it is
sent "YOU WIN", but "YOU LOSE" is sent to the same connection 2 and never to
the other seat (connection 3). -/
theorem winner_is_also_told_lose :
    Reachable reseatedEve ∧ reseatedEve.canPlayTurn (handlerOf seatO) = true
      ∧ reseatedEve.isFreePos 2 = true
      ∧ (handlePlayerPosition 2 reseatedEve (handlerOf seatO)).map
          (fun r => (r.1.Players.map Player.Score, r.2.take 2))
          = some ([1, 0], [Event.write 2 youWinMsg, Event.write 2 youLoseMsg])
      ∧ (handlePlayerPosition 2 reseatedEve (handlerOf seatO)).map
          (fun r => decide (Event.write 3 youLoseMsg ∈ r.2)) = some false :=
  ⟨reachable_reseatedEve, by decide, by decide, by decide, by decide⟩

end TicTacToe
